import Mathlib

/-!
# ncmdump: tag writers (`cmd/tag.go`)

A shallow embedding of `cmd/tag.go`: the PNG signature test, the cover
download, and the two tag writers `addFLACTag` and `addMP3Tag`.

Go values are embedded as follows.

* `[]byte` is `Option (List UInt8)` where the code distinguishes the `nil`
  slice from a non-nil one (`imgData != nil`), and `List UInt8` elsewhere.
* `string` is `String`, a sequence of runes (Go strings that are not valid
  UTF-8 are left out); `[]byte(s)` is the list of UTF-8 bytes of `s`.
* A Go `error` result is `Option Error` (`none` is `nil`); a function that
  returns `error` and has an effect on a file returns `Except Error σ`, the
  `ok` value being what was written.
* What the operating system, the network and the image decoders answer is
  read from an explicit environment `Env`.

The third-party packages that `tag.go` calls (`go-flac`, `flacvorbis`,
`flacpicture`, `bogem/id3v2`, the Go standard library) are embedded next to
the call sites, each definition naming the library function it stands for.
-/

namespace Ncmdump

/-! ## Basic data -/

/-- Byte strings (`[]byte` that is known to be non-nil). -/
abbrev Bytes := List UInt8

/-- Go `error` values. Only their presence matters to `tag.go`. -/
structure Error where
  msg : String
  deriving DecidableEq, Repr

/-- The Go conversion `[]byte(s)`: the UTF-8 bytes of `s`. -/
def stringBytes (s : String) : Bytes :=
  s.toUTF8.data.toList

/-- `ncmdump.Album`, the fields read by `tag.go`. -/
structure Album where
  Name : String
  CoverUrl : String
  deriving DecidableEq, Repr

/-- `ncmdump.Artist`, the field read by `tag.go`. -/
structure Artist where
  Name : String
  deriving DecidableEq, Repr

/-- `ncmdump.Meta`, the fields read by `tag.go`. -/
structure Meta where
  Name : String
  Album : Album
  Artists : List Artist
  Comment : String
  deriving DecidableEq, Repr

/-! ## PNG signature (`tag.go` lines 17-22) -/

/-- The eight bytes compared against in `containPNGHeader`. -/
def pngSignature : Bytes := [137, 80, 78, 71, 13, 10, 26, 10]

/-- `containPNGHeader` (lines 17-22): false on fewer than 8 bytes, otherwise
the first 8 bytes are compared with the PNG signature. -/
def containPNGHeader (data : Bytes) : Bool :=
  if data.length < 8 then
    false
  else
    data.take 8 == pngSignature

/-- The MIME choice made by both writers (lines 65-68 and 154-157):
`picMIME := "image/jpeg"; if containPNGHeader(imgData) { picMIME = "image/png" }`. -/
def picMIME (imgData : Bytes) : String :=
  if containPNGHeader imgData then "image/png" else "image/jpeg"

/-! ## Cover download (`tag.go` lines 24-48) -/

/-- What `net/http` answers to the GET request issued by `fetchUrl`. -/
inductive HTTPResult where
  /-- `http.NewRequest` returns an error (line 26). -/
  | requestError (err : Error)
  /-- `client.Do` returns an error: network failure or the 30 s timeout (line 33). -/
  | doError (err : Error)
  /-- A response arrived; `body` is what `ioutil.ReadAll(res.Body)` returns. -/
  | response (statusCode : Nat) (body : Except Error Bytes)

/-- `http.StatusOK`. -/
def StatusOK : Nat := 200

/-- `fetchUrl` (lines 24-48), given the answer of the network. The result is
the Go pair `([]byte, error)`. On a status other than 200 the code returns
`nil, err` with `err` still `nil` from `client.Do` (line 39). The slice
returned by `ioutil.ReadAll` is not `nil`, also for an empty body. -/
def fetchUrl (answer : HTTPResult) : Option Bytes × Option Error :=
  match answer with
  | .requestError err => (none, some err)
  | .doError err => (none, some err)
  | .response statusCode body =>
    if statusCode ≠ StatusOK then
      (none, none)
    else
      match body with
      | .error err => (none, some err)
      | .ok data => (some data, none)

/-! ## `go-flac`: metadata blocks -/

/-- `flac.BlockType`. -/
abbrev BlockType := Nat

/-- `flac.VorbisComment`, the fifth constant of the `BlockType` enumeration. -/
def VorbisComment : BlockType := 4

/-- `flac.Picture`, the seventh constant of the `BlockType` enumeration. -/
def Picture : BlockType := 6

/-- `flac.MetaDataBlock`; the field `Type_` is Go's `Type`. -/
structure MetaDataBlock where
  Type_ : BlockType
  Data : Bytes
  deriving DecidableEq, Repr

/-- `flac.File`: the metadata blocks and the audio frames. -/
structure File where
  Meta : List MetaDataBlock
  Frames : Bytes
  deriving DecidableEq, Repr

/-! ## `flacvorbis`: Vorbis comments -/

/-- `flacvorbis.MetaDataBlockVorbisComment`: each comment is one string
`KEY=value`. -/
structure MetaDataBlockVorbisComment where
  Vendor : String
  Comments : List String
  deriving DecidableEq, Repr

/-- `flacvorbis.FIELD_TITLE`. -/
def FIELD_TITLE : String := "TITLE"
/-- `flacvorbis.FIELD_ALBUM`. -/
def FIELD_ALBUM : String := "ALBUM"
/-- `flacvorbis.FIELD_ARTIST`. -/
def FIELD_ARTIST : String := "ARTIST"

/-- `flacvorbis.ErrorMalformedComment`. -/
def ErrorMalformedComment : Error := ⟨"malformed comment"⟩

/-- The split at the first `=` of a list of characters: `none` when there is
no `=`. -/
def splitAtEq : List Char → Option (List Char × List Char)
  | [] => none
  | c :: cs =>
    if c = '=' then some ([], cs)
    else match splitAtEq cs with
      | none => none
      | some (k, v) => some (c :: k, v)

/-- `strings.SplitN(cmt, "=", 2)` as used in `Get`: the result has two parts,
the text before the first `=` and the text after it, exactly when `cmt`
contains `=`; otherwise it has one part (`none` here). -/
def SplitN2 (cmt : String) : Option (String × String) :=
  match splitAtEq cmt.data with
  | none => none
  | some (k, v) => some (⟨k⟩, ⟨v⟩)

/-- The representative taken of a rune's case-folding orbit
(`unicode.SimpleFold`): upper-case ASCII letters go to lower case, and the
two runes outside ASCII whose orbit meets ASCII, U+212A (Kelvin sign) and
U+017F (long s), go to `k` and `s`. -/
def foldRune (c : Char) : Char :=
  if 65 ≤ c.toNat ∧ c.toNat ≤ 90 then Char.ofNat (c.toNat + 32)
  else if c.toNat = 0x212A then 'k'
  else if c.toNat = 0x017F then 's'
  else c

/-- `strings.EqualFold(s, t)`: equality under Unicode simple case folding.
The orbits used are those of `foldRune`, which makes the result that of Go
whenever one of the two strings is ASCII, as the keys passed by `tag.go`
are. -/
def EqualFold (s t : String) : Bool :=
  s.data.map foldRune == t.data.map foldRune

/-- The loop of `MetaDataBlockVorbisComment.Get`: `res` collects the values
of the comments whose key equals `key` under `EqualFold`; a comment without
`=` ends the loop with `ErrorMalformedComment`. -/
def getLoop (key : String) : List String → List String → Except Error (List String)
  | [], res => .ok res
  | cmt :: rest, res =>
    match SplitN2 cmt with
    | none => .error ErrorMalformedComment
    | some (k, v) =>
      if EqualFold k key then getLoop key rest (res ++ [v])
      else getLoop key rest res

/-- `MetaDataBlockVorbisComment.Get`: all values stored under `key`, in the
order of the comments. -/
def MetaDataBlockVorbisComment.Get (c : MetaDataBlockVorbisComment) (key : String) :
    Except Error (List String) :=
  getLoop key c.Comments []

/-- The test of `MetaDataBlockVorbisComment.Add` on the key: no rune below
0x20, above 0x7d, or equal to `=`. -/
def validFieldName (key : String) : Bool :=
  key.data.all fun char => !(char.toNat < 0x20 || char.toNat > 0x7d || char = '=')

/-- `MetaDataBlockVorbisComment.Add`: appends `key=val`; on an invalid key it
returns `ErrorInvalidFieldName` and changes nothing. `tag.go` drops the
returned error, so only the receiver after the call is given. -/
def MetaDataBlockVorbisComment.Add (c : MetaDataBlockVorbisComment) (key val : String) :
    MetaDataBlockVorbisComment :=
  if validFieldName key then
    { c with Comments := c.Comments ++ [key ++ "=" ++ val] }
  else c

/-- `flacvorbis.New`: no comments; the vendor string holds the package
version, which is passed in. -/
def MetaDataBlockVorbisComment.New (vendor : String) : MetaDataBlockVorbisComment :=
  { Vendor := vendor, Comments := [] }

/-! ## Go `image`: format sniffing -/

/-- What `flacpicture.NewFromImageData` reads from a decoded image. -/
structure ImageInfo where
  Width : Nat
  Height : Nat
  ColorDepth : Nat
  IndexedColorCount : Nat
  deriving DecidableEq, Repr

/-- One entry of the table filled by `image.RegisterFormat`: the magic
string, in which byte 63 (`?`) matches any byte, and the decoder. -/
structure ImageFormat where
  name : String
  magic : Bytes
  decode : Bytes → Except Error ImageInfo

/-- `image.ErrFormat`. -/
def ErrFormat : Error := ⟨"image: unknown format"⟩

/-- `image.match`: `magic` and `b` have the same length and agree bytewise
up to `?` in `magic`. -/
def matchMagic (magic b : Bytes) : Bool :=
  magic.length == b.length && (magic.zip b).all fun mb => mb.1 == mb.2 || mb.1 == 63

/-- `image.sniff`: the first registered format whose magic matches the
leading bytes; `Peek(len(magic))` fails when fewer bytes are there. -/
def sniff (formats : List ImageFormat) (data : Bytes) : Option ImageFormat :=
  formats.find? fun f =>
    decide (f.magic.length ≤ data.length) && matchMagic f.magic (data.take f.magic.length)

/-- `image.Decode`: `ErrFormat` when no registered format matches, otherwise
the answer of that format's decoder. -/
def imageDecode (formats : List ImageFormat) (data : Bytes) : Except Error ImageInfo :=
  match sniff formats data with
  | none => .error ErrFormat
  | some f => f.decode data

/-! ## `flacpicture`: picture blocks -/

/-- `flacpicture.MetadataBlockPicture`. -/
structure MetadataBlockPicture where
  PictureType : Nat
  MIME : String
  Description : String
  Width : Nat
  Height : Nat
  ColorDepth : Nat
  IndexedColorCount : Nat
  ImageData : Bytes
  deriving DecidableEq, Repr

/-- `flacpicture.PictureTypeFrontCover`. -/
def PictureTypeFrontCover : Nat := 3

/-- `flacpicture.NewFromImageData`: the image is decoded with `image.Decode`
to fill in its dimensions; a decoding error is returned to the caller. -/
def NewFromImageData (formats : List ImageFormat) (pictype : Nat) (description : String)
    (imgdata : Bytes) (mime : String) : Except Error MetadataBlockPicture :=
  match imageDecode formats imgdata with
  | .error err => .error err
  | .ok img => .ok
      { PictureType := pictype, MIME := mime, Description := description,
        Width := img.Width, Height := img.Height, ColorDepth := img.ColorDepth,
        IndexedColorCount := img.IndexedColorCount, ImageData := imgdata }

/-! ## `bogem/id3v2`: the frames of a tag that `tag.go` reads or writes -/

/-- `id3v2.Encoding`; `zero` is the zero value found in `TextFrame{}`. -/
inductive Encoding where
  | zero | EncodingISO | EncodingUTF16 | EncodingUTF16BE | EncodingUTF8
  deriving DecidableEq, Repr

/-- `id3v2.TextFrame`. -/
structure TextFrame where
  Encoding : Encoding
  Text : String
  deriving DecidableEq, Repr

/-- `id3v2.PictureFrame`. -/
structure PictureFrame where
  Encoding : Encoding
  MimeType : String
  PictureType : Nat
  Description : String
  Picture : Bytes
  deriving DecidableEq, Repr

/-- `id3v2.CommentFrame`. -/
structure CommentFrame where
  Encoding : Encoding
  Language : String
  Description : String
  Text : String
  deriving DecidableEq, Repr

/-- `id3v2.PTFrontCover`. -/
def PTFrontCover : Nat := 3

/-- `id3v2.Tag`, restricted to the frames `tag.go` touches. The library keeps
`frames map[string]Framer`, one frame per ID, for the IDs that are not kept
as a sequence, which are the text frames `T***` (other than `TXXX`) among
others, and `sequences map[string]*sequence` for the rest. `text` is the
first map at the text-frame IDs, `pictures` the sequence `APIC` and
`comments` the sequence `COMM`. -/
structure Tag where
  text : String → Option TextFrame
  pictures : List PictureFrame
  comments : List CommentFrame

/-- `PictureFrame.UniqueIdentifier` of the package `github.com/bogem/id3v2`
that `tag.go` imports: the description of the picture. The picture type is
not part of it (it is in the later package `id3v2/v2`). -/
def PictureFrame.UniqueIdentifier (pf : PictureFrame) : String :=
  pf.Description

/-- `CommentFrame.UniqueIdentifier`: `cf.Language + cf.Description`. -/
def CommentFrame.UniqueIdentifier (cf : CommentFrame) : String :=
  cf.Language ++ cf.Description

/-- `sequence.AddFrame`: a frame of the sequence with the same unique
identifier is replaced where it stands (the first one, `indexOfFrame`);
otherwise the frame is appended. -/
def sequenceAddFrame {α : Type} (uid : α → String) (f : α) : List α → List α
  | [] => [f]
  | g :: rest =>
    if uid f = uid g then f :: rest
    else g :: sequenceAddFrame uid f rest

/-- `Tag.AddAttachedPicture`: `AddFrame("APIC", pf)`, `APIC` being kept as a
sequence. -/
def Tag.AddAttachedPicture (tag : Tag) (pf : PictureFrame) : Tag :=
  { tag with pictures := sequenceAddFrame PictureFrame.UniqueIdentifier pf tag.pictures }

/-- `Tag.AddCommentFrame`: `AddFrame("COMM", cf)`, `COMM` being kept as a
sequence. -/
def Tag.AddCommentFrame (tag : Tag) (cf : CommentFrame) : Tag :=
  { tag with comments := sequenceAddFrame CommentFrame.UniqueIdentifier cf tag.comments }

/-- `Tag.AddTextFrame(id, encoding, text)` for an ID that is not kept as a
sequence, as `TIT2`, `TALB` and `TPE1` are: `AddFrame` executes
`tag.frames[id] = f`, which replaces the frame stored under `id`. -/
def Tag.AddTextFrame (tag : Tag) (id : String) (encoding : Encoding) (text : String) : Tag :=
  { tag with text := fun k => if k = id then some { Encoding := encoding, Text := text } else tag.text k }

/-- `Tag.GetTextFrame(id)` for a text-frame ID: the frame stored under `id`,
or the zero value `TextFrame{}` when there is none. -/
def Tag.GetTextFrame (tag : Tag) (id : String) : TextFrame :=
  match tag.text id with
  | some f => f
  | none => { Encoding := .zero, Text := "" }

/-- `id3v2.Framer`, the three frame types of `Tag`. -/
inductive Framer where
  | text (f : TextFrame)
  | picture (f : PictureFrame)
  | comment (f : CommentFrame)
  deriving DecidableEq, Repr

/-- `Tag.GetFrames(id)`: the single frame when `frames` holds `id`,
otherwise the frames of the sequence `id`, otherwise nothing. -/
def Tag.GetFrames (tag : Tag) (id : String) : List Framer :=
  match tag.text id with
  | some f => [.text f]
  | none =>
    if id = "APIC" then tag.pictures.map .picture
    else if id = "COMM" then tag.comments.map .comment
    else []

/-! ## The environment of the writers -/

/-- What the writers obtain from outside: the network, the image decoders
registered with Go's `image` package, the files, and the byte codecs of the
FLAC libraries. -/
structure Env where
  /-- The answer of the network to a GET on the URL. -/
  http : String → HTTPResult
  /-- The formats registered with `image.RegisterFormat`. -/
  formats : List ImageFormat
  /-- `flac.ParseFile`. -/
  ParseFile : String → Except Error File
  /-- `(*flac.File).Save`. -/
  Save : String → File → Option Error
  /-- `flacvorbis.ParseFromMetaDataBlock`. -/
  ParseFromMetaDataBlock : MetaDataBlock → Except Error MetaDataBlockVorbisComment
  /-- The vendor string of `flacvorbis.New`. -/
  vendor : String
  /-- The bytes written by `MetaDataBlockVorbisComment.Marshal`. -/
  vorbisBytes : MetaDataBlockVorbisComment → Bytes
  /-- The bytes written by `MetadataBlockPicture.Marshal`. -/
  pictureBytes : MetadataBlockPicture → Bytes
  /-- `id3v2.Open` with `Parse: true`. -/
  Open : String → Except Error Tag
  /-- `(*id3v2.Tag).Save`, for the tag opened from the named file. -/
  SaveTag : String → Tag → Option Error

/-- `MetaDataBlockVorbisComment.Marshal`: a block of type `VorbisComment`. -/
def MetaDataBlockVorbisComment.Marshal (env : Env) (c : MetaDataBlockVorbisComment) :
    MetaDataBlock :=
  { Type_ := VorbisComment, Data := env.vorbisBytes c }

/-- `MetadataBlockPicture.Marshal`: a block of type `Picture`. -/
def MetadataBlockPicture.Marshal (env : Env) (p : MetadataBlockPicture) : MetaDataBlock :=
  { Type_ := Picture, Data := env.pictureBytes p }

/-! ## The writers (`tag.go` lines 50-211) -/

/-- Lines 56-62 and 145-151, the same in both writers: without image bytes
and with a cover URL the cover is fetched; a returned error is logged and
`imgData` stays `nil`, otherwise `imgData` becomes the returned slice. -/
def fetchCover (env : Env) (imgData : Option Bytes) (meta : Meta) : Option Bytes :=
  if imgData = none ∧ meta.Album.CoverUrl ≠ "" then
    match fetchUrl (env.http meta.Album.CoverUrl) with
    | (_, some _) => imgData
    | (coverData, none) => coverData
  else imgData

/-- The picture of lines 75-80, which holds the cover URL in place of an
image. -/
def linkPicture (meta : Meta) : MetadataBlockPicture :=
  { PictureType := PictureTypeFrontCover, MIME := "-->", Description := "Front cover",
    Width := 0, Height := 0, ColorDepth := 0, IndexedColorCount := 0,
    ImageData := stringBytes meta.Album.CoverUrl }

/-- Lines 64-83 of `addFLACTag`: the blocks after the picture step. -/
def appendPicture (env : Env) (blocks : List MetaDataBlock) (imgData : Option Bytes)
    (meta : Meta) : List MetaDataBlock :=
  match imgData with
  | some img =>
    match NewFromImageData env.formats PictureTypeFrontCover "Front cover" img (picMIME img) with
    | .ok picture => blocks ++ [picture.Marshal env]
    | .error _ => blocks
  | none =>
    if meta.Album.CoverUrl ≠ "" then blocks ++ [(linkPicture meta).Marshal env]
    else blocks

/-- Lines 85-91 of `addFLACTag`: the first block of type `VorbisComment`,
with its position in the list; this is what the pointer `cmtmeta` refers
to, `none` being `nil`. -/
def findComment : List MetaDataBlock → Option (Nat × MetaDataBlock)
  | [] => none
  | m :: rest =>
    if m.Type_ = VorbisComment then some (0, m)
    else match findComment rest with
      | none => none
      | some (i, b) => some (i + 1, b)

/-- Lines 102-123 of `addFLACTag`: the title, album and artist steps on the
decoded comments. -/
def mergeComments (cmts : MetaDataBlockVorbisComment) (meta : Meta) :
    Except Error MetaDataBlockVorbisComment :=
  match cmts.Get FIELD_TITLE with
  | .error err => .error err
  | .ok titles =>
    let cmts :=
      if titles.length = 0 then
        if meta.Name ≠ "" then cmts.Add FIELD_TITLE meta.Name else cmts
      else cmts
    match cmts.Get FIELD_ALBUM with
    | .error err => .error err
    | .ok albums =>
      let cmts :=
        if albums.length = 0 then
          if meta.Album.Name ≠ "" then cmts.Add FIELD_ALBUM meta.Album.Name else cmts
        else cmts
      match cmts.Get FIELD_ARTIST with
      | .error err => .error err
      | .ok artists =>
        if artists.length = 0 then
          .ok (meta.Artists.foldl (fun c artist => c.Add FIELD_ARTIST artist.Name) cmts)
        else .ok cmts

/-- Lines 92-100 of `addFLACTag`: the comments decoded from the block
`cmtmeta`, or the empty comments of `flacvorbis.New` when it is `nil`. -/
def decodeComments (env : Env) (cmtmeta : Option (Nat × MetaDataBlock)) :
    Except Error MetaDataBlockVorbisComment :=
  match cmtmeta with
  | some (_, m) => env.ParseFromMetaDataBlock m
  | none => .ok (MetaDataBlockVorbisComment.New env.vendor)

/-- Lines 56-129 of `addFLACTag`: the file to be saved, from the parsed file. -/
def tagFLAC (env : Env) (f : File) (imgData : Option Bytes) (meta : Meta) : Except Error File :=
  let imgData := fetchCover env imgData meta
  let blocks := appendPicture env f.Meta imgData meta
  let cmtmeta := findComment blocks
  match decodeComments env cmtmeta with
  | .error err => .error err
  | .ok cmts =>
    match mergeComments cmts meta with
    | .error err => .error err
    | .ok cmts =>
      let res := cmts.Marshal env
      match cmtmeta with
      | some (i, _) => .ok { f with Meta := blocks.set i res }
      | none => .ok { f with Meta := blocks ++ [res] }

/-- `addFLACTag` (lines 50-136). The value `ok f` is the file saved under
`fileName`; an error is the error the Go function returns. -/
def addFLACTag (env : Env) (fileName : String) (imgData : Option Bytes) (meta : Meta) :
    Except Error File :=
  match env.ParseFile fileName with
  | .error err => .error err
  | .ok f =>
    match tagFLAC env f imgData meta with
    | .error err => .error err
    | .ok f =>
      match env.Save fileName f with
      | some err => .error err
      | none => .ok f

/-- The frame of lines 158-164, holding the image bytes. -/
def imagePictureFrame (imgData : Bytes) : PictureFrame :=
  { Encoding := .EncodingISO, MimeType := picMIME imgData, PictureType := PTFrontCover,
    Description := "Front cover", Picture := imgData }

/-- The frame of lines 167-173, holding the cover URL in place of an image. -/
def linkPictureFrame (meta : Meta) : PictureFrame :=
  { Encoding := .EncodingISO, MimeType := "-->", PictureType := PTFrontCover,
    Description := "Front cover", Picture := stringBytes meta.Album.CoverUrl }

/-- Lines 153-175 of `addMP3Tag`: the tag after the picture step. -/
def attachPicture (tag : Tag) (imgData : Option Bytes) (meta : Meta) : Tag :=
  match imgData with
  | some img => tag.AddAttachedPicture (imagePictureFrame img)
  | none =>
    if meta.Album.CoverUrl ≠ "" then tag.AddAttachedPicture (linkPictureFrame meta)
    else tag

/-- Lines 177-181 of `addMP3Tag`: the title step. -/
def addTitle (tag : Tag) (meta : Meta) : Tag :=
  if (tag.GetTextFrame "TIT2").Text = "" then
    if meta.Name ≠ "" then tag.AddTextFrame "TIT2" .EncodingUTF8 meta.Name else tag
  else tag

/-- Lines 183-187 of `addMP3Tag`: the album step. -/
def addAlbum (tag : Tag) (meta : Meta) : Tag :=
  if (tag.GetTextFrame "TALB").Text = "" then
    if meta.Album.Name ≠ "" then tag.AddTextFrame "TALB" .EncodingUTF8 meta.Album.Name else tag
  else tag

/-- Lines 189-193 of `addMP3Tag`: the artist step, one `AddTextFrame` call
per artist, in order. -/
def addArtists (tag : Tag) (meta : Meta) : Tag :=
  if (tag.GetTextFrame "TPE1").Text = "" then
    meta.Artists.foldl (fun t artist => t.AddTextFrame "TPE1" .EncodingUTF8 artist.Name) tag
  else tag

/-- The frame of lines 197-202. -/
def commentFrame (meta : Meta) : CommentFrame :=
  { Encoding := .EncodingISO, Language := "XXX", Description := "", Text := meta.Comment }

/-- Lines 195-204 of `addMP3Tag`: the comment step. -/
def addComment (tag : Tag) (meta : Meta) : Tag :=
  if (tag.GetFrames "COMM").length = 0 then
    if meta.Comment ≠ "" then tag.AddCommentFrame (commentFrame meta) else tag
  else tag

/-- Lines 145-204 of `addMP3Tag`: the tag to be saved, from the opened tag. -/
def tagMP3 (env : Env) (tag : Tag) (imgData : Option Bytes) (meta : Meta) : Tag :=
  let imgData := fetchCover env imgData meta
  let tag := attachPicture tag imgData meta
  let tag := addTitle tag meta
  let tag := addAlbum tag meta
  let tag := addArtists tag meta
  addComment tag meta

/-- `addMP3Tag` (lines 138-211). The value `ok tag` is the tag saved into
`fileName`; an error is the error the Go function returns. -/
def addMP3Tag (env : Env) (fileName : String) (imgData : Option Bytes) (meta : Meta) :
    Except Error Tag :=
  match env.Open fileName with
  | .error err => .error err
  | .ok tag =>
    let tag := tagMP3 env tag imgData meta
    match env.SaveTag fileName tag with
    | some err => .error err
    | none => .ok tag

/-! ## Notions used in the statements -/

/-- Every comment of the list contains `=`, so that `Get` returns no error. -/
def wellFormed (cs : List String) : Bool :=
  cs.all fun cmt => (SplitN2 cmt).isSome

/-- The values that the comments of a list hold under `key`, in order. -/
def valuesOf (key : String) (cs : List String) : List String :=
  cs.filterMap fun cmt =>
    match SplitN2 cmt with
    | some (k, v) => if EqualFold k key then some v else none
    | none => none

/-- The comments that the title step appends to `cs`. -/
def titleEntries (cs : List String) (m : Meta) : List String :=
  if valuesOf FIELD_TITLE cs = [] ∧ m.Name ≠ "" then [FIELD_TITLE ++ "=" ++ m.Name] else []

/-- The comments that the album step appends to `cs`. -/
def albumEntries (cs : List String) (m : Meta) : List String :=
  if valuesOf FIELD_ALBUM cs = [] ∧ m.Album.Name ≠ "" then [FIELD_ALBUM ++ "=" ++ m.Album.Name]
  else []

/-- The comments that the artist step appends to `cs`. -/
def artistEntries (cs : List String) (m : Meta) : List String :=
  if valuesOf FIELD_ARTIST cs = [] then m.Artists.map fun a => FIELD_ARTIST ++ "=" ++ a.Name
  else []

/-- The comments after the three steps of `mergeComments`. -/
def mergedComments (cs : List String) (m : Meta) : List String :=
  cs ++ titleEntries cs m ++ albumEntries cs m ++ artistEntries cs m

/-- The number of blocks of type `Picture` in a block list. -/
def pictureCount (blocks : List MetaDataBlock) : Nat :=
  (blocks.filter fun b => decide (b.Type_ = Picture)).length

/-- The fetch fails, in each of the ways `fetchUrl` can fail: the request
cannot be built or sent (network error, timeout), the status is not 200, or
the body of the answer cannot be read. -/
def FetchFails (answer : HTTPResult) : Prop :=
  match answer with
  | .requestError _ => True
  | .doError _ => True
  | .response statusCode body => statusCode ≠ StatusOK ∨ ∃ err, body = .error err

/-- The cover-art resolution of `addFLACTag` ends in a picture block: image
bytes (supplied or fetched) that `image.Decode` accepts, or no image bytes
and a non-empty cover URL. -/
def coverAccepted (env : Env) (imgData : Option Bytes) (meta : Meta) : Bool :=
  match fetchCover env imgData meta with
  | some img =>
    match imageDecode env.formats img with
    | .ok _ => true
    | .error _ => false
  | none => decide (meta.Album.CoverUrl ≠ "")

/-- The picture blocks appended by lines 64-83 of `addFLACTag`: none or one. -/
def coverBlocks (env : Env) (imgData : Option Bytes) (meta : Meta) : List MetaDataBlock :=
  appendPicture env [] imgData meta

/-- The block list written by `addFLACTag`, from the parsed blocks, the
appended picture blocks and the encoded comments. -/
def taggedBlocks (blocks pics : List MetaDataBlock) (res : MetaDataBlock) :
    List MetaDataBlock :=
  match findComment blocks with
  | some (i, _) => blocks.set i res ++ pics
  | none => blocks ++ pics ++ [res]

/-- The file written by `addFLACTag`: the block list is replaced, the audio
frames are kept. -/
def taggedFile (f : File) (pics : List MetaDataBlock) (res : MetaDataBlock) : File :=
  { f with Meta := taggedBlocks f.Meta pics res }

/-! ## A sample environment

Concrete files, tags and codecs on which the writers can be evaluated. -/

/-- The formats `png` and `jpeg` with the magic strings of the Go standard
library; the sample decoders report a 1x1 image. -/
def sampleFormats : List ImageFormat :=
  [ { name := "png", magic := [137, 80, 78, 71, 13, 10, 26, 10],
      decode := fun _ => .ok ⟨1, 1, 32, 0⟩ },
    { name := "jpeg", magic := [255, 216], decode := fun _ => .ok ⟨1, 1, 24, 0⟩ } ]

/-- The sample comment codec writes each comment followed by a zero byte. -/
def sampleVorbisBytes (c : MetaDataBlockVorbisComment) : Bytes :=
  (c.Comments.map fun cmt => stringBytes cmt ++ [0]).flatten

/-- The pieces of a byte string that end at its zero bytes. -/
def splitZero : Bytes → List Bytes
  | [] => []
  | b :: rest =>
    if b = 0 then [] :: splitZero rest
    else match splitZero rest with
      | [] => [[b]]
      | x :: xs => (b :: x) :: xs

/-- The sample comment decoder, for ASCII comments. -/
def sampleParse (m : MetaDataBlock) : Except Error MetaDataBlockVorbisComment :=
  .ok { Vendor := "reference", Comments := (splitZero m.Data).map fun piece =>
    String.mk (piece.map fun b => Char.ofNat b.toNat) }

/-- A FLAC file with a stream-info block, a picture block, and two comment
blocks, the first of which holds a title. -/
def sampleFile : File :=
  { Meta := [⟨0, [1, 2]⟩, ⟨Picture, [7]⟩, ⟨VorbisComment, stringBytes "title=Old" ++ [0]⟩,
      ⟨VorbisComment, []⟩],
    Frames := [255, 248] }

/-- A FLAC file without comment block. -/
def bareFile : File :=
  { Meta := [⟨0, [1, 2]⟩, ⟨Picture, [7]⟩], Frames := [255, 248] }

/-- An ID3 tag without frames. -/
def emptyTag : Tag :=
  { text := fun _ => none, pictures := [], comments := [] }

/-- An ID3 tag whose title frame has an empty text. -/
def blankTitleTag : Tag :=
  { text := fun k => if k = "TIT2" then some ⟨.EncodingISO, ""⟩ else none,
    pictures := [], comments := [] }

/-- An ID3 tag that holds one picture, a back cover described `Front cover`. -/
def coverTag : Tag :=
  { text := fun _ => none,
    pictures := [⟨.EncodingISO, "image/png", 4, "Front cover", [137, 80]⟩], comments := [] }

/-- The sample environment: every cover URL answers 404, every file can be
saved, `song.flac` is `sampleFile`, every other FLAC name is `bareFile`,
`blank.mp3` is `blankTitleTag`, `cover.mp3` is `coverTag` and every other
MP3 name is `emptyTag`. -/
def sampleEnv : Env :=
  { http := fun _ => .response 404 (.ok [60, 104, 49, 62])
    formats := sampleFormats
    ParseFile := fun name => if name = "song.flac" then .ok sampleFile else .ok bareFile
    Save := fun _ _ => none
    ParseFromMetaDataBlock := sampleParse
    vendor := "reference"
    vorbisBytes := sampleVorbisBytes
    pictureBytes := fun p => stringBytes p.MIME ++ [0] ++ p.ImageData
    Open := fun name =>
      if name = "blank.mp3" then .ok blankTitleTag
      else if name = "cover.mp3" then .ok coverTag
      else .ok emptyTag
    SaveTag := fun _ _ => none }

/-- A track with two artists, a comment and a cover URL. -/
def sampleMeta : Meta :=
  { Name := "Song", Album := { Name := "Disc", CoverUrl := "http://c/1.jpg" },
    Artists := [⟨"A"⟩, ⟨"B"⟩], Comment := "163 key" }

/-- A track with every field empty. -/
def emptyMeta : Meta :=
  { Name := "", Album := { Name := "", CoverUrl := "" }, Artists := [], Comment := "" }

/-! ## Lemmas on the Vorbis comment operations -/

theorem getLoop_eq (key : String) (cs res : List String) :
    getLoop key cs res =
      if wellFormed cs then .ok (res ++ valuesOf key cs) else .error ErrorMalformedComment := by
  induction cs generalizing res with
  | nil => simp [getLoop, wellFormed, valuesOf]
  | cons cmt rest ih =>
    unfold getLoop
    cases h : SplitN2 cmt with
    | none => simp [wellFormed, h]
    | some kv =>
      obtain ⟨k, v⟩ := kv
      by_cases hk : EqualFold k key = true
      · simp [ih, wellFormed, valuesOf, h, hk, List.filterMap_cons]
      · simp [ih, wellFormed, valuesOf, h, hk, List.filterMap_cons]

theorem Get_eq (c : MetaDataBlockVorbisComment) (key : String) :
    c.Get key =
      if wellFormed c.Comments then .ok (valuesOf key c.Comments)
      else .error ErrorMalformedComment := by
  simp [MetaDataBlockVorbisComment.Get, getLoop_eq]

theorem SplitN2_title (v : String) : SplitN2 (FIELD_TITLE ++ "=" ++ v) = some (FIELD_TITLE, v) := by
  simp [SplitN2, splitAtEq, FIELD_TITLE]

theorem SplitN2_album (v : String) : SplitN2 (FIELD_ALBUM ++ "=" ++ v) = some (FIELD_ALBUM, v) := by
  simp [SplitN2, splitAtEq, FIELD_ALBUM]

theorem SplitN2_artist (v : String) : SplitN2 (FIELD_ARTIST ++ "=" ++ v) = some (FIELD_ARTIST, v) := by
  simp [SplitN2, splitAtEq, FIELD_ARTIST]

theorem wellFormed_append (a b : List String) :
    wellFormed (a ++ b) = (wellFormed a && wellFormed b) := by
  simp [wellFormed, List.all_append]

theorem valuesOf_append (key : String) (a b : List String) :
    valuesOf key (a ++ b) = valuesOf key a ++ valuesOf key b := by
  simp [valuesOf, List.filterMap_append]

theorem wellFormed_titleEntries (cs : List String) (m : Meta) :
    wellFormed (titleEntries cs m) = true := by
  unfold titleEntries
  split <;> simp [wellFormed, SplitN2_title]

theorem wellFormed_albumEntries (cs : List String) (m : Meta) :
    wellFormed (albumEntries cs m) = true := by
  unfold albumEntries
  split <;> simp [wellFormed, SplitN2_album]

theorem wellFormed_artistEntries (cs : List String) (m : Meta) :
    wellFormed (artistEntries cs m) = true := by
  unfold artistEntries
  split <;> simp [wellFormed, SplitN2_artist]

theorem Add_title (c : MetaDataBlockVorbisComment) (v : String) :
    c.Add FIELD_TITLE v = { c with Comments := c.Comments ++ [FIELD_TITLE ++ "=" ++ v] } := by
  have h : validFieldName FIELD_TITLE = true := by decide
  simp [MetaDataBlockVorbisComment.Add, h]

theorem Add_album (c : MetaDataBlockVorbisComment) (v : String) :
    c.Add FIELD_ALBUM v = { c with Comments := c.Comments ++ [FIELD_ALBUM ++ "=" ++ v] } := by
  have h : validFieldName FIELD_ALBUM = true := by decide
  simp [MetaDataBlockVorbisComment.Add, h]

theorem Add_artist (c : MetaDataBlockVorbisComment) (v : String) :
    c.Add FIELD_ARTIST v = { c with Comments := c.Comments ++ [FIELD_ARTIST ++ "=" ++ v] } := by
  have h : validFieldName FIELD_ARTIST = true := by decide
  simp [MetaDataBlockVorbisComment.Add, h]

theorem foldl_Add_artist (artists : List Artist) (c : MetaDataBlockVorbisComment) :
    artists.foldl (fun c artist => c.Add FIELD_ARTIST artist.Name) c =
      { c with Comments := c.Comments ++ artists.map fun a => FIELD_ARTIST ++ "=" ++ a.Name } := by
  induction artists generalizing c with
  | nil => simp
  | cons a rest ih =>
    rw [List.foldl_cons, ih, Add_artist]
    simp

theorem valuesOf_titleEntries (key : String) (cs : List String) (m : Meta) :
    valuesOf key (titleEntries cs m) =
      if EqualFold FIELD_TITLE key then
        (if valuesOf FIELD_TITLE cs = [] ∧ m.Name ≠ "" then [m.Name] else [])
      else [] := by
  unfold titleEntries
  split <;> split <;> simp_all [valuesOf, SplitN2_title]

theorem valuesOf_albumEntries (key : String) (cs : List String) (m : Meta) :
    valuesOf key (albumEntries cs m) =
      if EqualFold FIELD_ALBUM key then
        (if valuesOf FIELD_ALBUM cs = [] ∧ m.Album.Name ≠ "" then [m.Album.Name] else [])
      else [] := by
  unfold albumEntries
  split <;> split <;> simp_all [valuesOf, SplitN2_album]

theorem valuesOf_map_artist (key : String) (artists : List Artist) :
    valuesOf key (artists.map fun a => FIELD_ARTIST ++ "=" ++ a.Name) =
      if EqualFold FIELD_ARTIST key then artists.map (·.Name) else [] := by
  induction artists with
  | nil => simp [valuesOf]
  | cons a rest ih =>
    have hc : valuesOf key ((FIELD_ARTIST ++ "=" ++ a.Name) :: rest.map fun a => FIELD_ARTIST ++ "=" ++ a.Name) =
        valuesOf key [FIELD_ARTIST ++ "=" ++ a.Name] ++
          valuesOf key (rest.map fun a => FIELD_ARTIST ++ "=" ++ a.Name) := by
      rw [← valuesOf_append]; rfl
    rw [List.map_cons, hc, ih]
    split <;> simp_all [valuesOf, SplitN2_artist]

theorem valuesOf_artistEntries (key : String) (cs : List String) (m : Meta) :
    valuesOf key (artistEntries cs m) =
      if EqualFold FIELD_ARTIST key then
        (if valuesOf FIELD_ARTIST cs = [] then m.Artists.map (·.Name) else [])
      else [] := by
  unfold artistEntries
  split
  · rw [valuesOf_map_artist]
  · split <;> simp [valuesOf]

theorem EqualFold_keys :
    EqualFold FIELD_TITLE FIELD_TITLE = true ∧ EqualFold FIELD_TITLE FIELD_ALBUM = false ∧
    EqualFold FIELD_TITLE FIELD_ARTIST = false ∧ EqualFold FIELD_ALBUM FIELD_TITLE = false ∧
    EqualFold FIELD_ALBUM FIELD_ALBUM = true ∧ EqualFold FIELD_ALBUM FIELD_ARTIST = false ∧
    EqualFold FIELD_ARTIST FIELD_TITLE = false ∧ EqualFold FIELD_ARTIST FIELD_ALBUM = false ∧
    EqualFold FIELD_ARTIST FIELD_ARTIST = true := by decide

theorem titleStep_eq (c : MetaDataBlockVorbisComment) (m : Meta) :
    (if (valuesOf FIELD_TITLE c.Comments).length = 0 then
        if m.Name ≠ "" then c.Add FIELD_TITLE m.Name else c
      else c) = { c with Comments := c.Comments ++ titleEntries c.Comments m } := by
  unfold titleEntries
  by_cases h1 : valuesOf FIELD_TITLE c.Comments = [] <;> by_cases h2 : m.Name = "" <;>
    simp [h1, h2, Add_title]

theorem albumStep_eq (c : MetaDataBlockVorbisComment) (m : Meta) :
    (if (valuesOf FIELD_ALBUM c.Comments).length = 0 then
        if m.Album.Name ≠ "" then c.Add FIELD_ALBUM m.Album.Name else c
      else c) = { c with Comments := c.Comments ++ albumEntries c.Comments m } := by
  unfold albumEntries
  by_cases h1 : valuesOf FIELD_ALBUM c.Comments = [] <;> by_cases h2 : m.Album.Name = "" <;>
    simp [h1, h2, Add_album]

theorem artistStep_eq (c : MetaDataBlockVorbisComment) (m : Meta) :
    (if (valuesOf FIELD_ARTIST c.Comments).length = 0 then
        (.ok (m.Artists.foldl (fun c artist => c.Add FIELD_ARTIST artist.Name) c) :
          Except Error MetaDataBlockVorbisComment)
      else .ok c) = .ok { c with Comments := c.Comments ++ artistEntries c.Comments m } := by
  unfold artistEntries
  by_cases h1 : valuesOf FIELD_ARTIST c.Comments = [] <;> simp [h1, foldl_Add_artist]

theorem albumEntries_congr (cs cs2 : List String) (m : Meta)
    (h : valuesOf FIELD_ALBUM cs2 = valuesOf FIELD_ALBUM cs) :
    albumEntries cs2 m = albumEntries cs m := by
  simp [albumEntries, h]

theorem artistEntries_congr (cs cs2 : List String) (m : Meta)
    (h : valuesOf FIELD_ARTIST cs2 = valuesOf FIELD_ARTIST cs) :
    artistEntries cs2 m = artistEntries cs m := by
  simp [artistEntries, h]

theorem mergeComments_eq (c : MetaDataBlockVorbisComment) (m : Meta) :
    mergeComments c m =
      if wellFormed c.Comments then
        .ok { c with Comments := mergedComments c.Comments m }
      else .error ErrorMalformedComment := by
  obtain ⟨htt, hta, htr, hat, haa, har, hrt, hra, hrr⟩ := EqualFold_keys
  unfold mergeComments
  by_cases hw : wellFormed c.Comments = true
  · have h1 : c.Get FIELD_TITLE = .ok (valuesOf FIELD_TITLE c.Comments) := by
      rw [Get_eq, if_pos hw]
    rw [h1]
    simp only [hw, if_true]
    rw [titleStep_eq]
    have hw1 : wellFormed (c.Comments ++ titleEntries c.Comments m) = true := by
      rw [wellFormed_append, hw, wellFormed_titleEntries]; rfl
    have hv1 : valuesOf FIELD_ALBUM (c.Comments ++ titleEntries c.Comments m) =
        valuesOf FIELD_ALBUM c.Comments := by
      rw [valuesOf_append, valuesOf_titleEntries, hta]; simp
    have hv1r : valuesOf FIELD_ARTIST (c.Comments ++ titleEntries c.Comments m) =
        valuesOf FIELD_ARTIST c.Comments := by
      rw [valuesOf_append, valuesOf_titleEntries, htr]; simp
    rw [Get_eq]
    simp only [hw1, if_true]
    have ha := albumStep_eq ⟨c.Vendor, c.Comments ++ titleEntries c.Comments m⟩ m
    simp only [] at ha
    rw [ha, albumEntries_congr _ _ m hv1]
    have hw2 : wellFormed (c.Comments ++ titleEntries c.Comments m ++ albumEntries c.Comments m)
        = true := by
      rw [wellFormed_append, hw1, wellFormed_albumEntries]; rfl
    have hv2 : valuesOf FIELD_ARTIST
        (c.Comments ++ titleEntries c.Comments m ++ albumEntries c.Comments m) =
        valuesOf FIELD_ARTIST c.Comments := by
      rw [valuesOf_append, valuesOf_albumEntries, har, hv1r]; simp
    rw [Get_eq]
    simp only [hw2, if_true]
    have hr := artistStep_eq
      ⟨c.Vendor, c.Comments ++ titleEntries c.Comments m ++ albumEntries c.Comments m⟩ m
    simp only [] at hr
    rw [hr, artistEntries_congr _ _ m hv2]
    rfl
  · have h1 : c.Get FIELD_TITLE = .error ErrorMalformedComment := by
      rw [Get_eq, if_neg hw]
    rw [h1]
    simp [hw]

theorem wellFormed_merged (cs : List String) (m : Meta) :
    wellFormed (mergedComments cs m) = wellFormed cs := by
  simp [mergedComments, wellFormed_append, wellFormed_titleEntries, wellFormed_albumEntries,
    wellFormed_artistEntries]

theorem valuesOf_merged_title (cs : List String) (m : Meta) :
    valuesOf FIELD_TITLE (mergedComments cs m) =
      valuesOf FIELD_TITLE cs ++
        (if valuesOf FIELD_TITLE cs = [] ∧ m.Name ≠ "" then [m.Name] else []) := by
  obtain ⟨htt, hta, htr, hat, haa, har, hrt, hra, hrr⟩ := EqualFold_keys
  simp [mergedComments, valuesOf_append, valuesOf_titleEntries, valuesOf_albumEntries,
    valuesOf_artistEntries, htt, hat, hrt]

theorem valuesOf_merged_album (cs : List String) (m : Meta) :
    valuesOf FIELD_ALBUM (mergedComments cs m) =
      valuesOf FIELD_ALBUM cs ++
        (if valuesOf FIELD_ALBUM cs = [] ∧ m.Album.Name ≠ "" then [m.Album.Name] else []) := by
  obtain ⟨htt, hta, htr, hat, haa, har, hrt, hra, hrr⟩ := EqualFold_keys
  simp [mergedComments, valuesOf_append, valuesOf_titleEntries, valuesOf_albumEntries,
    valuesOf_artistEntries, hta, haa, hra]

theorem valuesOf_merged_artist (cs : List String) (m : Meta) :
    valuesOf FIELD_ARTIST (mergedComments cs m) =
      valuesOf FIELD_ARTIST cs ++
        (if valuesOf FIELD_ARTIST cs = [] then m.Artists.map (·.Name) else []) := by
  obtain ⟨htt, hta, htr, hat, haa, har, hrt, hra, hrr⟩ := EqualFold_keys
  simp [mergedComments, valuesOf_append, valuesOf_titleEntries, valuesOf_albumEntries,
    valuesOf_artistEntries, htr, har, hrr]

theorem Get_ok_iff (c : MetaDataBlockVorbisComment) (key : String) (vs : List String) :
    c.Get key = .ok vs ↔ wellFormed c.Comments = true ∧ valuesOf key c.Comments = vs := by
  rw [Get_eq]
  by_cases hw : wellFormed c.Comments = true <;> simp [hw]

theorem titleEntries_merged (cs : List String) (m : Meta) :
    titleEntries (mergedComments cs m) m = [] := by
  unfold titleEntries
  rw [valuesOf_merged_title]
  by_cases h1 : valuesOf FIELD_TITLE cs = [] <;> by_cases h2 : m.Name = "" <;> simp [h1, h2]

theorem albumEntries_merged (cs : List String) (m : Meta) :
    albumEntries (mergedComments cs m) m = [] := by
  unfold albumEntries
  rw [valuesOf_merged_album]
  by_cases h1 : valuesOf FIELD_ALBUM cs = [] <;> by_cases h2 : m.Album.Name = "" <;>
    simp [h1, h2]

theorem artistEntries_merged (cs : List String) (m : Meta) :
    artistEntries (mergedComments cs m) m = [] := by
  unfold artistEntries
  rw [valuesOf_merged_artist]
  by_cases h1 : valuesOf FIELD_ARTIST cs = [] <;> by_cases h2 : m.Artists = [] <;>
    simp [h1, h2]

theorem mergedComments_idem (cs : List String) (m : Meta) :
    mergedComments (mergedComments cs m) m = mergedComments cs m := by
  have h : mergedComments (mergedComments cs m) m =
      mergedComments cs m ++ titleEntries (mergedComments cs m) m ++
        albumEntries (mergedComments cs m) m ++ artistEntries (mergedComments cs m) m := rfl
  rw [h, titleEntries_merged, albumEntries_merged, artistEntries_merged]
  simp

/-! ## Lemmas on the block list -/

theorem appendPicture_eq (env : Env) (blocks : List MetaDataBlock) (imgData : Option Bytes)
    (meta : Meta) :
    appendPicture env blocks imgData meta = blocks ++ coverBlocks env imgData meta := by
  unfold coverBlocks appendPicture
  cases imgData with
  | none => by_cases h : meta.Album.CoverUrl = "" <;> simp [h]
  | some img =>
    simp only []
    split <;> simp

theorem coverBlocks_length (env : Env) (imgData : Option Bytes) (meta : Meta) :
    (coverBlocks env imgData meta).length ≤ 1 := by
  unfold coverBlocks appendPicture
  cases imgData with
  | none => by_cases h : meta.Album.CoverUrl = "" <;> simp [h]
  | some img =>
    simp only []
    split <;> simp

theorem coverBlocks_type (env : Env) (imgData : Option Bytes) (meta : Meta) :
    ∀ p ∈ coverBlocks env imgData meta, p.Type_ = Picture := by
  unfold coverBlocks appendPicture
  cases imgData with
  | none => by_cases h : meta.Album.CoverUrl = "" <;> simp [h, MetadataBlockPicture.Marshal]
  | some img =>
    simp only []
    split <;> simp [MetadataBlockPicture.Marshal]

theorem findComment_append (blocks pics : List MetaDataBlock)
    (hp : ∀ p ∈ pics, p.Type_ = Picture) :
    findComment (blocks ++ pics) = findComment blocks := by
  induction blocks with
  | nil =>
    induction pics with
    | nil => rfl
    | cons p rest ih =>
      have h1 : p.Type_ = Picture := hp p (List.mem_cons_self _ _)
      have h2 : ¬ p.Type_ = VorbisComment := by rw [h1]; decide
      have h3 := ih (fun q hq => hp q (List.mem_cons_of_mem _ hq))
      simp only [List.nil_append] at h3 ⊢
      simp [findComment, h2, h3]
  | cons b rest ih =>
    by_cases h : b.Type_ = VorbisComment
    · simp [findComment, h]
    · simp [findComment, h, ih]

theorem findComment_some (blocks : List MetaDataBlock) (i : Nat) (b : MetaDataBlock)
    (h : findComment blocks = some (i, b)) :
    i < blocks.length ∧ blocks.get? i = some b ∧ b.Type_ = VorbisComment ∧
      ∀ j x, j < i → blocks.get? j = some x → x.Type_ ≠ VorbisComment := by
  induction blocks generalizing i with
  | nil => simp [findComment] at h
  | cons a rest ih =>
    by_cases ha : a.Type_ = VorbisComment
    · simp [findComment, ha] at h
      obtain ⟨h1, h2⟩ := h
      subst h1; subst h2
      simp [ha]
    · simp only [findComment, ha, if_false] at h
      cases hr : findComment rest with
      | none => simp [hr] at h
      | some ib =>
        obtain ⟨i0, b0⟩ := ib
        simp [hr] at h
        obtain ⟨h1, h2⟩ := h
        subst h1; subst h2
        obtain ⟨k1, k2, k3, k4⟩ := ih i0 hr
        refine ⟨by simpa using k1, by simpa using k2, k3, ?_⟩
        intro j x hj hx
        cases j with
        | zero => simp at hx; subst hx; exact ha
        | succ j => exact k4 j x (by omega) (by simpa using hx)

theorem findComment_none (blocks : List MetaDataBlock) (h : findComment blocks = none) :
    ∀ b ∈ blocks, b.Type_ ≠ VorbisComment := by
  induction blocks with
  | nil => simp
  | cons a rest ih =>
    by_cases ha : a.Type_ = VorbisComment
    · simp [findComment, ha] at h
    · simp only [findComment, ha, if_false] at h
      cases hr : findComment rest with
      | none =>
        intro b hb
        rcases List.mem_cons.1 hb with hb | hb
        · subst hb; exact ha
        · exact ih hr b hb
      | some ib => simp [hr] at h

theorem tagFLAC_eq (env : Env) (f : File) (imgData : Option Bytes) (meta : Meta) :
    tagFLAC env f imgData meta =
      match decodeComments env (findComment f.Meta) with
      | .error err => .error err
      | .ok c =>
        match mergeComments c meta with
        | .error err => .error err
        | .ok c' => .ok (taggedFile f
            (coverBlocks env (fetchCover env imgData meta) meta) (c'.Marshal env)) := by
  unfold tagFLAC
  simp only [appendPicture_eq]
  rw [findComment_append _ _ (coverBlocks_type env _ meta)]
  cases hd : decodeComments env (findComment f.Meta) with
  | error err => rfl
  | ok c =>
    simp only []
    cases hm : mergeComments c meta with
    | error err => rfl
    | ok c' =>
      simp only [taggedFile, taggedBlocks]
      cases hf : findComment f.Meta with
      | none => rfl
      | some ib =>
        obtain ⟨i, b⟩ := ib
        have hi := (findComment_some f.Meta i b hf).1
        simp only [List.set_append_left _ _ hi]

theorem addFLACTag_ok (env : Env) (fileName : String) (imgData : Option Bytes) (meta : Meta)
    (f : File) (c c' : MetaDataBlockVorbisComment)
    (hp : env.ParseFile fileName = .ok f)
    (hd : decodeComments env (findComment f.Meta) = .ok c)
    (hm : mergeComments c meta = .ok c')
    (hs : ∀ g, env.Save fileName g = none) :
    addFLACTag env fileName imgData meta =
      .ok (taggedFile f
        (coverBlocks env (fetchCover env imgData meta) meta) (c'.Marshal env)) := by
  unfold addFLACTag
  rw [hp]
  simp only [tagFLAC_eq, hd, hm, hs]

theorem addFLACTag_ok_inv (env : Env) (fileName : String) (imgData : Option Bytes)
    (meta : Meta) (f f' : File)
    (hp : env.ParseFile fileName = .ok f)
    (h : addFLACTag env fileName imgData meta = .ok f') :
    ∃ c c', decodeComments env (findComment f.Meta) = .ok c ∧ mergeComments c meta = .ok c' ∧
      f' = (taggedFile f
        (coverBlocks env (fetchCover env imgData meta) meta) (c'.Marshal env)) := by
  unfold addFLACTag at h
  rw [hp] at h
  simp only [tagFLAC_eq] at h
  cases hd : decodeComments env (findComment f.Meta) with
  | error err => simp [hd] at h
  | ok c =>
    cases hm : mergeComments c meta with
    | error err => simp [hd, hm] at h
    | ok c' =>
      simp only [hd, hm] at h
      refine ⟨c, c', rfl, hm, ?_⟩
      split at h
      · simp at h
      · simp at h
        exact h.symm

theorem pictureCount_append (a b : List MetaDataBlock) :
    pictureCount (a ++ b) = pictureCount a + pictureCount b := by
  simp [pictureCount, List.filter_append]

theorem pictureCount_pictures (pics : List MetaDataBlock)
    (hp : ∀ p ∈ pics, p.Type_ = Picture) : pictureCount pics = pics.length := by
  unfold pictureCount
  rw [List.filter_eq_self.2]
  intro p hpm
  simpa using hp p hpm

theorem pictureCount_set (blocks : List MetaDataBlock) (i : Nat) (b res : MetaDataBlock)
    (hb : blocks[i]? = some b) (hbt : b.Type_ ≠ Picture) (hrt : res.Type_ ≠ Picture) :
    pictureCount (blocks.set i res) = pictureCount blocks := by
  induction blocks generalizing i with
  | nil => simp
  | cons a rest ih =>
    cases i with
    | zero =>
      simp at hb
      subst hb
      simp [pictureCount, List.filter_cons, hbt, hrt]
    | succ i =>
      simp at hb
      have h := ih i hb
      simp only [pictureCount] at h
      simp only [pictureCount, List.set_cons_succ, List.filter_cons]
      split <;> simp [h]

theorem pictureCount_taggedBlocks (blocks pics : List MetaDataBlock) (res : MetaDataBlock)
    (hp : ∀ p ∈ pics, p.Type_ = Picture) (hr : res.Type_ = VorbisComment) :
    pictureCount (taggedBlocks blocks pics res) = pictureCount blocks + pics.length := by
  have hvp : VorbisComment ≠ Picture := by decide
  have hrp : res.Type_ ≠ Picture := by rw [hr]; exact hvp
  unfold taggedBlocks
  cases hfc : findComment blocks with
  | some ib =>
    obtain ⟨i, b⟩ := ib
    obtain ⟨k1, k2, k3, k4⟩ := findComment_some blocks i b hfc
    simp only []
    rw [pictureCount_append, pictureCount_pictures pics hp,
      pictureCount_set blocks i b res (by simpa using k2) (by rw [k3]; exact hvp) hrp]
  | none =>
    simp only []
    rw [pictureCount_append, pictureCount_append, pictureCount_pictures pics hp]
    simp [pictureCount, hrp]

theorem taggedBlocks_getElem_length (blocks : List MetaDataBlock) (p res : MetaDataBlock) :
    (taggedBlocks blocks [p] res)[blocks.length]? = some p := by
  unfold taggedBlocks
  cases hfc : findComment blocks with
  | some ib =>
    obtain ⟨i, b⟩ := ib
    simp only []
    rw [List.getElem?_append_right (by simp)]
    simp
  | none =>
    simp only []
    rw [List.append_assoc, List.getElem?_append_right (by simp)]
    simp

theorem mem_taggedBlocks (blocks pics : List MetaDataBlock) (res : MetaDataBlock) :
    res ∈ taggedBlocks blocks pics res := by
  unfold taggedBlocks
  cases hfc : findComment blocks with
  | some ib =>
    obtain ⟨i, b⟩ := ib
    obtain ⟨k1, k2, k3, k4⟩ := findComment_some blocks i b hfc
    simp only []
    exact List.mem_append_left _ (List.mem_iff_getElem?.2 ⟨i, by simp [k1]⟩)
  | none => simp

theorem coverBlocks_accepted (env : Env) (imgData : Option Bytes) (meta : Meta)
    (h : coverAccepted env imgData meta = true) :
    ∃ p : MetadataBlockPicture,
      coverBlocks env (fetchCover env imgData meta) meta = [p.Marshal env] := by
  unfold coverAccepted at h
  unfold coverBlocks appendPicture
  cases hf : fetchCover env imgData meta with
  | none =>
    simp only [hf, decide_eq_true_eq] at h
    exact ⟨linkPicture meta, by simp [h]⟩
  | some img =>
    simp only [hf] at h
    cases hd : imageDecode env.formats img with
    | error e => simp [hd] at h
    | ok info =>
      exact ⟨⟨PictureTypeFrontCover, picMIME img, "Front cover", info.Width, info.Height,
        info.ColorDepth, info.IndexedColorCount, img⟩, by simp [NewFromImageData, hd]⟩

theorem coverBlocks_rejected (env : Env) (imgData : Option Bytes) (meta : Meta)
    (h : coverAccepted env imgData meta = false) :
    coverBlocks env (fetchCover env imgData meta) meta = [] := by
  unfold coverAccepted at h
  unfold coverBlocks appendPicture
  cases hf : fetchCover env imgData meta with
  | none =>
    simp only [hf, decide_eq_false_iff_not, not_not] at h
    simp [h]
  | some img =>
    simp only [hf] at h
    cases hd : imageDecode env.formats img with
    | error e => simp [NewFromImageData, hd]
    | ok info => simp [hd] at h

/-! ## Lemmas on the ID3 tag operations -/

theorem mem_sequenceAddFrame {α : Type} (uid : α → String) (f : α) (l : List α) :
    f ∈ sequenceAddFrame uid f l := by
  induction l with
  | nil => simp [sequenceAddFrame]
  | cons g rest ih =>
    unfold sequenceAddFrame
    split
    · simp
    · exact List.mem_cons_of_mem _ ih

theorem foldl_AddTextFrame_pictures (artists : List Artist) (tag : Tag) :
    (artists.foldl (fun t artist => t.AddTextFrame "TPE1" .EncodingUTF8 artist.Name) tag).pictures
      = tag.pictures := by
  induction artists generalizing tag with
  | nil => rfl
  | cons a rest ih => rw [List.foldl_cons, ih]; rfl

theorem foldl_AddTextFrame_comments (artists : List Artist) (tag : Tag) :
    (artists.foldl (fun t artist => t.AddTextFrame "TPE1" .EncodingUTF8 artist.Name) tag).comments
      = tag.comments := by
  induction artists generalizing tag with
  | nil => rfl
  | cons a rest ih => rw [List.foldl_cons, ih]; rfl

theorem foldl_AddTextFrame_text_ne (artists : List Artist) (tag : Tag) (k : String)
    (hk : k ≠ "TPE1") :
    (artists.foldl (fun t artist => t.AddTextFrame "TPE1" .EncodingUTF8 artist.Name) tag).text k
      = tag.text k := by
  induction artists generalizing tag with
  | nil => rfl
  | cons a rest ih => rw [List.foldl_cons, ih]; simp [Tag.AddTextFrame, hk]

theorem foldl_AddTextFrame_text_last (artists : List Artist) (a : Artist) (tag : Tag) :
    ((artists ++ [a]).foldl
        (fun t artist => t.AddTextFrame "TPE1" .EncodingUTF8 artist.Name) tag).text "TPE1"
      = some ⟨.EncodingUTF8, a.Name⟩ := by
  rw [List.foldl_append]
  simp [Tag.AddTextFrame]

theorem addTitle_pictures (tag : Tag) (m : Meta) : (addTitle tag m).pictures = tag.pictures := by
  unfold addTitle; split <;> [split; skip] <;> rfl

theorem addAlbum_pictures (tag : Tag) (m : Meta) : (addAlbum tag m).pictures = tag.pictures := by
  unfold addAlbum; split <;> [split; skip] <;> rfl

theorem addArtists_pictures (tag : Tag) (m : Meta) :
    (addArtists tag m).pictures = tag.pictures := by
  unfold addArtists; split
  · exact foldl_AddTextFrame_pictures _ _
  · rfl

theorem addComment_pictures (tag : Tag) (m : Meta) :
    (addComment tag m).pictures = tag.pictures := by
  unfold addComment; split <;> [split; skip] <;> rfl

theorem tagMP3_pictures (env : Env) (tag : Tag) (imgData : Option Bytes) (m : Meta) :
    (tagMP3 env tag imgData m).pictures =
      (attachPicture tag (fetchCover env imgData m) m).pictures := by
  simp [tagMP3, addComment_pictures, addArtists_pictures, addAlbum_pictures, addTitle_pictures]

theorem addMP3Tag_ok (env : Env) (fileName : String) (imgData : Option Bytes) (m : Meta)
    (tag : Tag) (ho : env.Open fileName = .ok tag) (hs : ∀ t, env.SaveTag fileName t = none) :
    addMP3Tag env fileName imgData m = .ok (tagMP3 env tag imgData m) := by
  simp [addMP3Tag, ho, hs]

theorem addMP3Tag_ok_inv (env : Env) (fileName : String) (imgData : Option Bytes) (m : Meta)
    (tag tag' : Tag) (ho : env.Open fileName = .ok tag)
    (h : addMP3Tag env fileName imgData m = .ok tag') :
    tag' = tagMP3 env tag imgData m := by
  unfold addMP3Tag at h
  rw [ho] at h
  simp only [] at h
  split at h
  · simp at h
  · simp at h; exact h.symm

theorem fetchCover_fails (env : Env) (m : Meta) (hfail : FetchFails (env.http m.Album.CoverUrl)) :
    fetchCover env none m = none := by
  unfold fetchCover
  split
  · cases ha : env.http m.Album.CoverUrl with
    | requestError e => simp [fetchUrl]
    | doError e => simp [fetchUrl]
    | response code body =>
      rw [ha] at hfail
      simp only [FetchFails] at hfail
      by_cases hc : code = StatusOK
      · rcases hfail with hf | ⟨err, hf⟩
        · exact absurd hc hf
        · simp [fetchUrl, hf, hc]
      · simp [fetchUrl, hc]
  · rfl

theorem addFLACTag_eq_save (env : Env) (fileName : String) (imgData : Option Bytes)
    (meta : Meta) (f : File) (c c' : MetaDataBlockVorbisComment)
    (hp : env.ParseFile fileName = .ok f)
    (hd : decodeComments env (findComment f.Meta) = .ok c)
    (hm : mergeComments c meta = .ok c') :
    addFLACTag env fileName imgData meta =
      match env.Save fileName (taggedFile f
          (coverBlocks env (fetchCover env imgData meta) meta) (c'.Marshal env)) with
      | some err => .error err
      | none => .ok (taggedFile f
          (coverBlocks env (fetchCover env imgData meta) meta) (c'.Marshal env)) := by
  unfold addFLACTag
  rw [hp]
  simp only [tagFLAC_eq, hd, hm]

theorem addMP3Tag_eq_save (env : Env) (fileName : String) (imgData : Option Bytes) (m : Meta)
    (tag : Tag) (ho : env.Open fileName = .ok tag) :
    addMP3Tag env fileName imgData m =
      match env.SaveTag fileName (tagMP3 env tag imgData m) with
      | some err => .error err
      | none => .ok (tagMP3 env tag imgData m) := by
  simp [addMP3Tag, ho]

theorem attachPicture_text (tag : Tag) (imgData : Option Bytes) (m : Meta) :
    (attachPicture tag imgData m).text = tag.text := by
  unfold attachPicture
  cases imgData with
  | some img => rfl
  | none => simp only []; split <;> rfl

theorem attachPicture_comments (tag : Tag) (imgData : Option Bytes) (m : Meta) :
    (attachPicture tag imgData m).comments = tag.comments := by
  unfold attachPicture
  cases imgData with
  | some img => rfl
  | none => simp only []; split <;> rfl

theorem addTitle_comments (tag : Tag) (m : Meta) : (addTitle tag m).comments = tag.comments := by
  unfold addTitle; split <;> [split; skip] <;> rfl

theorem addAlbum_comments (tag : Tag) (m : Meta) : (addAlbum tag m).comments = tag.comments := by
  unfold addAlbum; split <;> [split; skip] <;> rfl

theorem addArtists_comments (tag : Tag) (m : Meta) :
    (addArtists tag m).comments = tag.comments := by
  unfold addArtists; split
  · exact foldl_AddTextFrame_comments _ _
  · rfl

theorem addTitle_text_ne (tag : Tag) (m : Meta) (k : String) (hk : k ≠ "TIT2") :
    (addTitle tag m).text k = tag.text k := by
  unfold addTitle; split <;> [split; skip] <;> simp [Tag.AddTextFrame, hk]

theorem addAlbum_text_ne (tag : Tag) (m : Meta) (k : String) (hk : k ≠ "TALB") :
    (addAlbum tag m).text k = tag.text k := by
  unfold addAlbum; split <;> [split; skip] <;> simp [Tag.AddTextFrame, hk]

theorem addArtists_text_ne (tag : Tag) (m : Meta) (k : String) (hk : k ≠ "TPE1") :
    (addArtists tag m).text k = tag.text k := by
  unfold addArtists; split
  · exact foldl_AddTextFrame_text_ne _ _ k hk
  · rfl

theorem addComment_text (tag : Tag) (m : Meta) : (addComment tag m).text = tag.text := by
  unfold addComment; split <;> [split; skip] <;> rfl

theorem addTitle_text_keep (tag : Tag) (m : Meta)
    (h : (tag.GetTextFrame "TIT2").Text ≠ "" ∨ m.Name = "") : addTitle tag m = tag := by
  unfold addTitle
  rcases h with h | h <;> simp [h]

theorem addAlbum_text_keep (tag : Tag) (m : Meta)
    (h : (tag.GetTextFrame "TALB").Text ≠ "" ∨ m.Album.Name = "") : addAlbum tag m = tag := by
  unfold addAlbum
  rcases h with h | h <;> simp [h]

theorem addArtists_text_keep (tag : Tag) (m : Meta)
    (h : (tag.GetTextFrame "TPE1").Text ≠ "" ∨ m.Artists = []) : addArtists tag m = tag := by
  unfold addArtists
  rcases h with h | h <;> simp [h]

theorem GetTextFrame_congr (t1 t2 : Tag) (k : String) (h : t1.text k = t2.text k) :
    t1.GetTextFrame k = t2.GetTextFrame k := by
  simp [Tag.GetTextFrame, h]

theorem tagMP3_title (env : Env) (tag : Tag) (imgData : Option Bytes) (m : Meta)
    (h : (tag.GetTextFrame "TIT2").Text ≠ "" ∨ m.Name = "") :
    (tagMP3 env tag imgData m).text "TIT2" = tag.text "TIT2" := by
  unfold tagMP3
  simp only [addComment_text]
  rw [addArtists_text_ne _ _ _ (by decide), addAlbum_text_ne _ _ _ (by decide),
    addTitle_text_keep, attachPicture_text]
  rw [GetTextFrame_congr _ tag _ (by rw [attachPicture_text])]
  exact h

theorem tagMP3_album (env : Env) (tag : Tag) (imgData : Option Bytes) (m : Meta)
    (h : (tag.GetTextFrame "TALB").Text ≠ "" ∨ m.Album.Name = "") :
    (tagMP3 env tag imgData m).text "TALB" = tag.text "TALB" := by
  unfold tagMP3
  simp only [addComment_text]
  rw [addArtists_text_ne _ _ _ (by decide), addAlbum_text_keep,
    addTitle_text_ne _ _ _ (by decide), attachPicture_text]
  rw [GetTextFrame_congr _ tag _
    (by rw [addTitle_text_ne _ _ _ (by decide), attachPicture_text])]
  exact h

theorem tagMP3_artist (env : Env) (tag : Tag) (imgData : Option Bytes) (m : Meta)
    (h : (tag.GetTextFrame "TPE1").Text ≠ "" ∨ m.Artists = []) :
    (tagMP3 env tag imgData m).text "TPE1" = tag.text "TPE1" := by
  unfold tagMP3
  simp only [addComment_text]
  rw [addArtists_text_keep, addAlbum_text_ne _ _ _ (by decide),
    addTitle_text_ne _ _ _ (by decide), attachPicture_text]
  rw [GetTextFrame_congr _ tag _
    (by rw [addAlbum_text_ne _ _ _ (by decide), addTitle_text_ne _ _ _ (by decide),
      attachPicture_text])]
  exact h

theorem GetFrames_text (t1 t2 : Tag) (k : String) (hk1 : k ≠ "APIC") (hk2 : k ≠ "COMM")
    (h : t1.text k = t2.text k) : t1.GetFrames k = t2.GetFrames k := by
  simp [Tag.GetFrames, h, hk1, hk2]

theorem GetFrames_comm (t1 t2 : Tag) (h : t1.text "COMM" = t2.text "COMM")
    (hc : t1.comments = t2.comments) : t1.GetFrames "COMM" = t2.GetFrames "COMM" := by
  simp [Tag.GetFrames, h, hc]

theorem tagMP3_comm (env : Env) (tag : Tag) (imgData : Option Bytes) (m : Meta) :
    (tagMP3 env tag imgData m).GetFrames "COMM" =
      if tag.GetFrames "COMM" = [] ∧ m.Comment ≠ "" then [.comment (commentFrame m)]
      else tag.GetFrames "COMM" := by
  have key : (addArtists (addAlbum (addTitle
      (attachPicture tag (fetchCover env imgData m) m) m) m) m).GetFrames "COMM" =
      tag.GetFrames "COMM" := by
    apply GetFrames_comm
    · rw [addArtists_text_ne _ _ _ (by decide), addAlbum_text_ne _ _ _ (by decide),
        addTitle_text_ne _ _ _ (by decide), attachPicture_text]
    · rw [addArtists_comments, addAlbum_comments, addTitle_comments, attachPicture_comments]
  unfold tagMP3
  simp only []
  generalize addArtists (addAlbum (addTitle
      (attachPicture tag (fetchCover env imgData m) m) m) m) m = t at key
  rw [← key]
  unfold addComment
  by_cases h0 : t.GetFrames "COMM" = []
  · by_cases hc : m.Comment = ""
    · simp [h0, hc]
    · simp only [h0, List.length_nil, if_true, ne_eq, hc, not_false_eq_true, and_self]
      have ht : t.text "COMM" = none ∧ t.comments = [] := by
        unfold Tag.GetFrames at h0
        cases hx : t.text "COMM" with
        | some f => simp [hx] at h0
        | none => simpa [hx] using h0
      simp [Tag.GetFrames, Tag.AddCommentFrame, ht.1, ht.2, sequenceAddFrame]
  · have h1 : ¬ (t.GetFrames "COMM").length = 0 := by
      simpa [List.length_eq_zero] using h0
    simp [h0, h1]

/-! ## The claims -/

/-- C1 (FLAC merge-only): when the comments hold, under one of the keys
`TITLE`, `ALBUM`, `ARTIST`, a list of values `vs` with a non-empty value in
it, the merge steps of `addFLACTag` succeed and the values held under that
key afterwards are `vs` again: the same values in the same order, nothing
added. -/
theorem flac_merge_only (c : MetaDataBlockVorbisComment) (m : Meta) (K : String)
    (vs : List String)
    (hK : K = FIELD_TITLE ∨ K = FIELD_ALBUM ∨ K = FIELD_ARTIST)
    (hget : c.Get K = .ok vs) (hne : ∃ v ∈ vs, v ≠ "") :
    ∃ c', mergeComments c m = .ok c' ∧ c'.Get K = .ok vs := by
  obtain ⟨hw, hv⟩ := (Get_ok_iff c K vs).1 hget
  have hvs : vs ≠ [] := by
    obtain ⟨v, hv1, _⟩ := hne
    exact List.ne_nil_of_mem hv1
  refine ⟨{ c with Comments := mergedComments c.Comments m }, ?_, ?_⟩
  · rw [mergeComments_eq, if_pos hw]
  · rw [Get_ok_iff]
    refine ⟨by simpa [wellFormed_merged] using hw, ?_⟩
    rcases hK with h | h | h <;> subst h <;> subst hv
    · simp [valuesOf_merged_title, hvs]
    · simp [valuesOf_merged_album, hvs]
    · simp [valuesOf_merged_artist, hvs]

/-- C1 at comments that hold the title `Old` under the key `title`: the
title of the track is not added. -/
theorem flac_merge_only_sample :
    ∃ c', mergeComments ⟨"reference", ["title=Old"]⟩ sampleMeta = .ok c' ∧
      c'.Get FIELD_TITLE = .ok ["Old"] :=
  flac_merge_only ⟨"reference", ["title=Old"]⟩ sampleMeta FIELD_TITLE ["Old"] (Or.inl rfl) rfl
    ⟨"Old", by simp, by decide⟩

/-- C2, as amended (FLAC fill): on a file whose decoded comments hold no
title, album or artist (in particular a file without comment block), when
the file parses and can be saved, `addFLACTag` succeeds and writes a comment
block whose title is the track name (no title for an empty name), whose
album is the album name (no album for an empty name) and whose artists are
the artist names in order. The comments written are the decoded ones
followed by these entries: the comment of the track is not written. -/
theorem flac_fill (env : Env) (fileName : String) (imgData : Option Bytes) (meta : Meta)
    (f : File) (c : MetaDataBlockVorbisComment)
    (hp : env.ParseFile fileName = .ok f)
    (hd : decodeComments env (findComment f.Meta) = .ok c)
    (ht : c.Get FIELD_TITLE = .ok [])
    (ha : c.Get FIELD_ALBUM = .ok [])
    (hr : c.Get FIELD_ARTIST = .ok [])
    (hs : ∀ g, env.Save fileName g = none) :
    ∃ f' c', addFLACTag env fileName imgData meta = .ok f' ∧
      mergeComments c meta = .ok c' ∧
      c'.Marshal env ∈ f'.Meta ∧
      c'.Get FIELD_TITLE = .ok (if meta.Name = "" then [] else [meta.Name]) ∧
      c'.Get FIELD_ALBUM = .ok (if meta.Album.Name = "" then [] else [meta.Album.Name]) ∧
      c'.Get FIELD_ARTIST = .ok (meta.Artists.map fun a => a.Name) ∧
      c'.Comments = c.Comments ++
        (if meta.Name = "" then [] else ["TITLE=" ++ meta.Name]) ++
        (if meta.Album.Name = "" then [] else ["ALBUM=" ++ meta.Album.Name]) ++
        (meta.Artists.map fun a => "ARTIST=" ++ a.Name) := by
  obtain ⟨hw, hvt⟩ := (Get_ok_iff c FIELD_TITLE []).1 ht
  obtain ⟨_, hva⟩ := (Get_ok_iff c FIELD_ALBUM []).1 ha
  obtain ⟨_, hvr⟩ := (Get_ok_iff c FIELD_ARTIST []).1 hr
  have hm : mergeComments c meta = .ok { c with Comments := mergedComments c.Comments meta } := by
    rw [mergeComments_eq, if_pos hw]
  have hw' : wellFormed (mergedComments c.Comments meta) = true := by
    rw [wellFormed_merged]; exact hw
  refine ⟨_, _, addFLACTag_ok env fileName imgData meta f c _ hp hd hm hs, hm, ?_, ?_, ?_, ?_, ?_⟩
  · exact mem_taggedBlocks _ _ _
  · rw [Get_ok_iff]
    refine ⟨hw', ?_⟩
    simp only [valuesOf_merged_title, hvt]
    by_cases hn : meta.Name = "" <;> simp [hn]
  · rw [Get_ok_iff]
    refine ⟨hw', ?_⟩
    simp only [valuesOf_merged_album, hva]
    by_cases hn : meta.Album.Name = "" <;> simp [hn]
  · rw [Get_ok_iff]
    refine ⟨hw', ?_⟩
    simp only [valuesOf_merged_artist, hvr]
    simp
  · simp only [mergedComments, titleEntries, albumEntries, artistEntries, hvt, hva, hvr]
    by_cases hn : meta.Name = "" <;> by_cases hn2 : meta.Album.Name = "" <;>
      simp [hn, hn2, FIELD_TITLE, FIELD_ALBUM, FIELD_ARTIST]

/-- C2 as stated fails: the track has the comment `163 key`, the file has no
comment block, and the comments written are the title, the album and the
two artists; nothing is held under `COMMENT` or `DESCRIPTION`. -/
theorem flac_fill_counterexample :
    sampleMeta.Comment = "163 key" ∧
    decodeComments sampleEnv (findComment bareFile.Meta) = .ok ⟨"reference", []⟩ ∧
    mergeComments ⟨"reference", []⟩ sampleMeta =
      .ok ⟨"reference", ["TITLE=Song", "ALBUM=Disc", "ARTIST=A", "ARTIST=B"]⟩ ∧
    addFLACTag sampleEnv "bare.flac" none sampleMeta =
      .ok ⟨[⟨0, [1, 2]⟩, ⟨Picture, [7]⟩, (linkPicture sampleMeta).Marshal sampleEnv,
        (⟨"reference", ["TITLE=Song", "ALBUM=Disc", "ARTIST=A", "ARTIST=B"]⟩ :
          MetaDataBlockVorbisComment).Marshal sampleEnv], [255, 248]⟩ ∧
    (⟨"reference", ["TITLE=Song", "ALBUM=Disc", "ARTIST=A", "ARTIST=B"]⟩ :
      MetaDataBlockVorbisComment).Get "COMMENT" = .ok [] ∧
    (⟨"reference", ["TITLE=Song", "ALBUM=Disc", "ARTIST=A", "ARTIST=B"]⟩ :
      MetaDataBlockVorbisComment).Get "DESCRIPTION" = .ok [] :=
  ⟨rfl, rfl, rfl, rfl, rfl, rfl⟩

/-- C2, as amended, at the sample file without comment block. -/
theorem flac_fill_sample :
    ∃ f' c', addFLACTag sampleEnv "bare.flac" none sampleMeta = .ok f' ∧
      mergeComments ⟨"reference", []⟩ sampleMeta = .ok c' ∧
      c'.Marshal sampleEnv ∈ f'.Meta ∧
      c'.Get FIELD_TITLE = .ok (if sampleMeta.Name = "" then [] else [sampleMeta.Name]) ∧
      c'.Get FIELD_ALBUM =
        .ok (if sampleMeta.Album.Name = "" then [] else [sampleMeta.Album.Name]) ∧
      c'.Get FIELD_ARTIST = .ok (sampleMeta.Artists.map fun a => a.Name) ∧
      c'.Comments = [] ++
        (if sampleMeta.Name = "" then [] else ["TITLE=" ++ sampleMeta.Name]) ++
        (if sampleMeta.Album.Name = "" then [] else ["ALBUM=" ++ sampleMeta.Album.Name]) ++
        (sampleMeta.Artists.map fun a => "ARTIST=" ++ a.Name) :=
  flac_fill sampleEnv "bare.flac" none sampleMeta bareFile ⟨"reference", []⟩ rfl rfl rfl rfl rfl
    (fun _ => rfl)

/-- C3 (PNG sniffing): `containPNGHeader d` holds exactly when `d` has at
least 8 bytes and its first 8 bytes are 137,80,78,71,13,10,26,10; the MIME
type chosen by the writers is `image/png` in that case and `image/jpeg` in
every other, shorter inputs included. With the image bytes `d` supplied,
`addMP3Tag` attaches the picture frame that carries `d` with that type, and
`addFLACTag` appends the picture block that carries `d` with that type
whenever `image.Decode` accepts `d` (and no block when it does not). -/
theorem png_sniffing (d : Bytes) :
    (containPNGHeader d = true ↔
      8 ≤ d.length ∧ d.take 8 = [137, 80, 78, 71, 13, 10, 26, 10]) ∧
    picMIME d =
      (if 8 ≤ d.length ∧ d.take 8 = [137, 80, 78, 71, 13, 10, 26, 10] then "image/png"
       else "image/jpeg") ∧
    (∀ (env : Env) (tag : Tag) (meta : Meta),
      (tagMP3 env tag (some d) meta).pictures =
        sequenceAddFrame PictureFrame.UniqueIdentifier
          ⟨.EncodingISO, picMIME d, PTFrontCover, "Front cover", d⟩ tag.pictures ∧
      (⟨.EncodingISO, picMIME d, PTFrontCover, "Front cover", d⟩ : PictureFrame) ∈
        (tagMP3 env tag (some d) meta).pictures) ∧
    (∀ (env : Env) (blocks : List MetaDataBlock) (meta : Meta),
      appendPicture env blocks (fetchCover env (some d) meta) meta =
        match imageDecode env.formats d with
        | .ok img => blocks ++ [(⟨PictureTypeFrontCover, picMIME d, "Front cover", img.Width,
            img.Height, img.ColorDepth, img.IndexedColorCount, d⟩ :
              MetadataBlockPicture).Marshal env]
        | .error _ => blocks) := by
  have h1 : containPNGHeader d = true ↔
      8 ≤ d.length ∧ d.take 8 = [137, 80, 78, 71, 13, 10, 26, 10] := by
    unfold containPNGHeader pngSignature
    split
    · simp; omega
    · simp; omega
  have hf : ∀ (env : Env) (meta : Meta), fetchCover env (some d) meta = some d := by
    intro env meta
    simp [fetchCover]
  refine ⟨h1, ?_, ?_, ?_⟩
  · unfold picMIME
    by_cases h : containPNGHeader d = true
    · rw [if_pos h, if_pos (h1.1 h)]
    · rw [if_neg h, if_neg (fun hh => h (h1.2 hh))]
  · intro env tag meta
    have hp : (tagMP3 env tag (some d) meta).pictures =
        sequenceAddFrame PictureFrame.UniqueIdentifier
          ⟨.EncodingISO, picMIME d, PTFrontCover, "Front cover", d⟩ tag.pictures := by
      rw [tagMP3_pictures, hf]
      rfl
    refine ⟨hp, ?_⟩
    rw [hp]
    exact mem_sequenceAddFrame _ _ _
  · intro env blocks meta
    rw [hf]
    unfold appendPicture NewFromImageData
    cases hd : imageDecode env.formats d with
    | error e => simp [hd]
    | ok img => simp [hd]

/-- C4 (fetch fallback): without image bytes, with a non-empty cover URL and
a fetch that fails (network error, a status other than 200, or a body that
cannot be read), neither writer returns an error because of it: on a file
that parses, with comments that decode, `addFLACTag` gets to the save with a
file `f'` and returns what the save of `f'` returns; on a tag that opens,
`addMP3Tag` returns what the save of the tagged tag returns. `f'` holds one
more picture block, right after the parsed blocks, and the tagged tag holds
the picture frame; both have the MIME type `-->` and the bytes of the URL as
their payload. -/
theorem fetch_fallback (env : Env) (flacName mp3Name : String) (meta : Meta)
    (f : File) (c : MetaDataBlockVorbisComment) (tag : Tag)
    (hurl : meta.Album.CoverUrl ≠ "")
    (hfail : FetchFails (env.http meta.Album.CoverUrl)) :
    (env.ParseFile flacName = .ok f →
      decodeComments env (findComment f.Meta) = .ok c →
      wellFormed c.Comments = true →
      ∃ f', tagFLAC env f none meta = .ok f' ∧
        addFLACTag env flacName none meta =
          (match env.Save flacName f' with
            | some err => .error err
            | none => .ok f') ∧
        f'.Meta[f.Meta.length]? = some ((linkPicture meta).Marshal env) ∧
        pictureCount f'.Meta = pictureCount f.Meta + 1) ∧
    (env.Open mp3Name = .ok tag →
      addMP3Tag env mp3Name none meta =
        (match env.SaveTag mp3Name (tagMP3 env tag none meta) with
          | some err => .error err
          | none => .ok (tagMP3 env tag none meta)) ∧
      (tagMP3 env tag none meta).pictures =
        sequenceAddFrame PictureFrame.UniqueIdentifier (linkPictureFrame meta) tag.pictures ∧
      linkPictureFrame meta ∈ (tagMP3 env tag none meta).pictures) ∧
    (linkPicture meta).MIME = "-->" ∧
    (linkPicture meta).ImageData = stringBytes meta.Album.CoverUrl ∧
    (linkPictureFrame meta).MimeType = "-->" ∧
    (linkPictureFrame meta).Picture = stringBytes meta.Album.CoverUrl := by
  have hfc := fetchCover_fails env meta hfail
  refine ⟨?_, ?_, rfl, rfl, rfl, rfl⟩
  · intro hp hd hw
    have hm : mergeComments c meta = .ok { c with Comments := mergedComments c.Comments meta } := by
      rw [mergeComments_eq, if_pos hw]
    have hcb : coverBlocks env (fetchCover env none meta) meta =
        [(linkPicture meta).Marshal env] := by
      rw [hfc]
      simp [coverBlocks, appendPicture, hurl]
    refine ⟨_, ?_, addFLACTag_eq_save env flacName none meta f c _ hp hd hm, ?_, ?_⟩
    · rw [tagFLAC_eq, hd]
      simp only [hm]
    · rw [hcb]
      exact taggedBlocks_getElem_length _ _ _
    · rw [hcb]
      simp only [taggedFile]
      rw [pictureCount_taggedBlocks _ _ _ (by simp [MetadataBlockPicture.Marshal]) rfl]
      rfl
  · intro ho
    have hp : (tagMP3 env tag none meta).pictures =
        sequenceAddFrame PictureFrame.UniqueIdentifier (linkPictureFrame meta) tag.pictures := by
      rw [tagMP3_pictures, hfc]
      simp [attachPicture, hurl, Tag.AddAttachedPicture]
    refine ⟨addMP3Tag_eq_save env mp3Name none meta tag ho, hp, ?_⟩
    rw [hp]
    exact mem_sequenceAddFrame _ _ _

/-- C4 at the sample environment, whose network answers 404, on the sample
file and on a tag that holds a picture described `Front cover`. -/
theorem fetch_fallback_sample :
    (∃ f', tagFLAC sampleEnv sampleFile none sampleMeta = .ok f' ∧
        addFLACTag sampleEnv "song.flac" none sampleMeta =
          (match sampleEnv.Save "song.flac" f' with
            | some err => .error err
            | none => .ok f') ∧
        f'.Meta[sampleFile.Meta.length]? = some ((linkPicture sampleMeta).Marshal sampleEnv) ∧
        pictureCount f'.Meta = pictureCount sampleFile.Meta + 1) ∧
    (addMP3Tag sampleEnv "cover.mp3" none sampleMeta =
        (match sampleEnv.SaveTag "cover.mp3" (tagMP3 sampleEnv coverTag none sampleMeta) with
          | some err => .error err
          | none => .ok (tagMP3 sampleEnv coverTag none sampleMeta)) ∧
      (tagMP3 sampleEnv coverTag none sampleMeta).pictures =
        sequenceAddFrame PictureFrame.UniqueIdentifier (linkPictureFrame sampleMeta)
          coverTag.pictures ∧
      linkPictureFrame sampleMeta ∈ (tagMP3 sampleEnv coverTag none sampleMeta).pictures) :=
  ⟨(fetch_fallback sampleEnv "song.flac" "cover.mp3" sampleMeta sampleFile
      ⟨"reference", ["title=Old"]⟩ coverTag (by decide)
      (by simp [FetchFails, sampleEnv, StatusOK])).1 rfl rfl (by decide),
   (fetch_fallback sampleEnv "song.flac" "cover.mp3" sampleMeta sampleFile
      ⟨"reference", ["title=Old"]⟩ coverTag (by decide)
      (by simp [FetchFails, sampleEnv, StatusOK])).2.1 rfl⟩

/-- C5, as amended (FLAC picture append): on a successful call the number
of picture blocks grows by one, whatever pictures the file holds, when the
cover is accepted, that is when the image bytes (supplied or fetched) are
decoded by `image.Decode`, or when there are none and the cover URL is not
empty; the new block then stands right after the parsed blocks. Otherwise
no picture block is added. -/
theorem flac_picture_append (env : Env) (fileName : String) (imgData : Option Bytes)
    (meta : Meta) (f f' : File)
    (hp : env.ParseFile fileName = .ok f)
    (h : addFLACTag env fileName imgData meta = .ok f') :
    pictureCount f'.Meta =
      pictureCount f.Meta + (if coverAccepted env imgData meta = true then 1 else 0) ∧
    (if coverAccepted env imgData meta = true then
      ∃ p : MetadataBlockPicture, f'.Meta[f.Meta.length]? = some (p.Marshal env)
     else f'.Meta.length ≤ f.Meta.length + 1 ∧
       ∀ b ∈ f'.Meta, b.Type_ = Picture → b ∈ f.Meta) := by
  obtain ⟨c, c', hd, hm, hf⟩ := addFLACTag_ok_inv env fileName imgData meta f f' hp h
  subst hf
  simp only [taggedFile]
  by_cases ha : coverAccepted env imgData meta = true
  · obtain ⟨p, hpb⟩ := coverBlocks_accepted env imgData meta ha
    rw [hpb, if_pos ha, if_pos ha]
    refine ⟨?_, p, taggedBlocks_getElem_length _ _ _⟩
    rw [pictureCount_taggedBlocks _ _ _ (by simp [MetadataBlockPicture.Marshal]) rfl]
    rfl
  · have ha' : coverAccepted env imgData meta = false := by simpa using ha
    rw [coverBlocks_rejected env imgData meta ha', if_neg ha, if_neg ha]
    refine ⟨?_, ?_, ?_⟩
    · rw [pictureCount_taggedBlocks _ _ _ (by simp) rfl]
      rfl
    · unfold taggedBlocks
      split <;> simp
    · have hvp : ¬ VorbisComment = Picture := by decide
      intro b hb hbt
      unfold taggedBlocks at hb
      split at hb
      · simp only [List.append_nil] at hb
        rcases List.mem_or_eq_of_mem_set hb with hb | hb
        · exact hb
        · subst hb
          exact absurd hbt hvp
      · simp only [List.append_nil, List.mem_append, List.mem_singleton] at hb
        rcases hb with hb | hb
        · exact hb
        · subst hb
          exact absurd hbt hvp

/-- C5 as stated fails: with the image bytes 1,2,3, which `image.Decode`
rejects, the call succeeds and no picture block is appended; the file keeps
its one picture block. -/
theorem flac_picture_append_counterexample :
    addFLACTag sampleEnv "bare.flac" (some [1, 2, 3]) sampleMeta =
        .ok ⟨[⟨0, [1, 2]⟩, ⟨Picture, [7]⟩,
          ⟨VorbisComment, sampleVorbisBytes
            ⟨"reference", ["TITLE=Song", "ALBUM=Disc", "ARTIST=A", "ARTIST=B"]⟩⟩],
          [255, 248]⟩ ∧
      bareFile.Meta = [⟨0, [1, 2]⟩, ⟨Picture, [7]⟩] ∧
      pictureCount bareFile.Meta = 1 ∧
      pictureCount [⟨0, [1, 2]⟩, ⟨Picture, [7]⟩,
          ⟨VorbisComment, sampleVorbisBytes
            ⟨"reference", ["TITLE=Song", "ALBUM=Disc", "ARTIST=A", "ARTIST=B"]⟩⟩] = 1 :=
  ⟨rfl, rfl, rfl, rfl⟩

/-- C5, as amended, at the sample environment, with bytes that start as a JPEG. -/
theorem flac_picture_append_sample :
    pictureCount
        [⟨0, [1, 2]⟩, ⟨Picture, [7]⟩,
          (⟨3, "image/jpeg", "Front cover", 1, 1, 24, 0, [255, 216, 3]⟩ :
            MetadataBlockPicture).Marshal sampleEnv,
          ⟨VorbisComment, sampleVorbisBytes
            ⟨"reference", ["TITLE=Song", "ALBUM=Disc", "ARTIST=A", "ARTIST=B"]⟩⟩] =
      pictureCount bareFile.Meta +
        (if coverAccepted sampleEnv (some [255, 216, 3]) sampleMeta = true then 1 else 0) :=
  (flac_picture_append sampleEnv "bare.flac" (some [255, 216, 3]) sampleMeta bareFile
    ⟨[⟨0, [1, 2]⟩, ⟨Picture, [7]⟩,
        (⟨3, "image/jpeg", "Front cover", 1, 1, 24, 0, [255, 216, 3]⟩ :
          MetadataBlockPicture).Marshal sampleEnv,
        ⟨VorbisComment, sampleVorbisBytes
          ⟨"reference", ["TITLE=Song", "ALBUM=Disc", "ARTIST=A", "ARTIST=B"]⟩⟩],
      [255, 248]⟩ rfl rfl).1

/-- C6 (MP3 artist ordering) at the artists `A`, `B` and a tag without
frames: `addMP3Tag` succeeds and the tag saved holds one `TPE1` frame, with
the text `B`, not the two frames `A`, `B`. -/
theorem mp3_artist_frames_sample :
    sampleEnv.Open "song.mp3" = .ok emptyTag ∧
    emptyTag.GetFrames "TPE1" = [] ∧
    sampleMeta.Artists = [⟨"A"⟩, ⟨"B"⟩] ∧
    ∃ tag', addMP3Tag sampleEnv "song.mp3" none sampleMeta = .ok tag' ∧
      tag'.GetFrames "TPE1" = [.text ⟨.EncodingUTF8, "B"⟩] :=
  ⟨rfl, rfl, rfl, _, rfl, rfl⟩

/-- C7, as amended (MP3 merge-only): on a successful call, the frames held
under `TIT2`, `TALB` or `TPE1` differ from those before only if the frame
read under that ID had an empty text (or was absent) and the track has a
value for it; the frames held under `COMM` differ exactly when there was no
`COMM` frame and the comment of the track is not empty, and then the one
comment frame built from the track is held. -/
theorem mp3_merge_only (env : Env) (fileName : String) (imgData : Option Bytes) (meta : Meta)
    (tag tag' : Tag)
    (ho : env.Open fileName = .ok tag)
    (h : addMP3Tag env fileName imgData meta = .ok tag') :
    (tag'.GetFrames "TIT2" ≠ tag.GetFrames "TIT2" →
      (tag.GetTextFrame "TIT2").Text = "" ∧ meta.Name ≠ "") ∧
    (tag'.GetFrames "TALB" ≠ tag.GetFrames "TALB" →
      (tag.GetTextFrame "TALB").Text = "" ∧ meta.Album.Name ≠ "") ∧
    (tag'.GetFrames "TPE1" ≠ tag.GetFrames "TPE1" →
      (tag.GetTextFrame "TPE1").Text = "" ∧ meta.Artists ≠ []) ∧
    (tag'.GetFrames "COMM" ≠ tag.GetFrames "COMM" ↔
      tag.GetFrames "COMM" = [] ∧ meta.Comment ≠ "") ∧
    tag'.GetFrames "COMM" =
      (if tag.GetFrames "COMM" = [] ∧ meta.Comment ≠ "" then [.comment (commentFrame meta)]
       else tag.GetFrames "COMM") := by
  have ht := addMP3Tag_ok_inv env fileName imgData meta tag tag' ho h
  subst ht
  refine ⟨?_, ?_, ?_, ?_, tagMP3_comm env tag imgData meta⟩
  · intro hne
    by_contra hcon
    apply hne
    apply GetFrames_text _ _ _ (by decide) (by decide)
    apply tagMP3_title
    by_cases h1 : (tag.GetTextFrame "TIT2").Text = ""
    · right
      by_contra h2
      exact hcon ⟨h1, h2⟩
    · left; exact h1
  · intro hne
    by_contra hcon
    apply hne
    apply GetFrames_text _ _ _ (by decide) (by decide)
    apply tagMP3_album
    by_cases h1 : (tag.GetTextFrame "TALB").Text = ""
    · right
      by_contra h2
      exact hcon ⟨h1, h2⟩
    · left; exact h1
  · intro hne
    by_contra hcon
    apply hne
    apply GetFrames_text _ _ _ (by decide) (by decide)
    apply tagMP3_artist
    by_cases h1 : (tag.GetTextFrame "TPE1").Text = ""
    · right
      by_contra h2
      exact hcon ⟨h1, h2⟩
    · left; exact h1
  · rw [tagMP3_comm]
    by_cases hc : tag.GetFrames "COMM" = [] ∧ meta.Comment ≠ ""
    · rw [if_pos hc]
      simp [hc]
    · rw [if_neg hc]
      simp [hc]

/-- C7 as stated fails: the tag holds a `TIT2` frame, with an empty text,
and `addMP3Tag` writes a `TIT2` frame with the track name. -/
theorem mp3_merge_only_counterexample :
    blankTitleTag.GetFrames "TIT2" = [.text ⟨.EncodingISO, ""⟩] ∧
    sampleEnv.Open "blank.mp3" = .ok blankTitleTag ∧
    ∃ tag', addMP3Tag sampleEnv "blank.mp3" none sampleMeta = .ok tag' ∧
      tag'.GetFrames "TIT2" = [.text ⟨.EncodingUTF8, "Song"⟩] :=
  ⟨rfl, rfl, _, rfl, rfl⟩

/-- C7, as amended, at the sample tag without frames. -/
theorem mp3_merge_only_sample :
    (tagMP3 sampleEnv emptyTag none sampleMeta).GetFrames "COMM" =
      (if emptyTag.GetFrames "COMM" = [] ∧ sampleMeta.Comment ≠ "" then
        [.comment (commentFrame sampleMeta)]
       else emptyTag.GetFrames "COMM") :=
  (mp3_merge_only sampleEnv "song.mp3" none sampleMeta emptyTag
    (tagMP3 sampleEnv emptyTag none sampleMeta) rfl rfl).2.2.2.2

/-- C8 (round-trip on absence): with no image bytes and a track whose name,
album name, artists, comment and cover URL are all empty, on a container
without title, album, artist and comment: `addFLACTag`, on a file that
parses, gets to the save with a file `f'` and returns what the save of `f'`
returns; the comments written in `f'` are the decoded ones, which hold no
title, album or artist, and `f'` has as many picture blocks as the parsed
file. `addMP3Tag`, on a tag that opens, returns what the save of that same
tag returns: the tag is left as it was, its text frames and comment frames
empty and its pictures unchanged. -/
theorem absent_round_trip (env : Env) (flacName mp3Name : String) (meta : Meta)
    (f : File) (c : MetaDataBlockVorbisComment) (tag : Tag)
    (hn : meta.Name = "") (han : meta.Album.Name = "") (har : meta.Artists = [])
    (hc : meta.Comment = "") (hu : meta.Album.CoverUrl = "") :
    (env.ParseFile flacName = .ok f →
      decodeComments env (findComment f.Meta) = .ok c →
      c.Get FIELD_TITLE = .ok [] → c.Get FIELD_ALBUM = .ok [] → c.Get FIELD_ARTIST = .ok [] →
      ∃ f' c', tagFLAC env f none meta = .ok f' ∧
        addFLACTag env flacName none meta =
          (match env.Save flacName f' with
            | some err => .error err
            | none => .ok f') ∧
        mergeComments c meta = .ok c' ∧ c'.Marshal env ∈ f'.Meta ∧
        c'.Comments = c.Comments ∧
        c'.Get FIELD_TITLE = .ok [] ∧ c'.Get FIELD_ALBUM = .ok [] ∧
        c'.Get FIELD_ARTIST = .ok [] ∧
        pictureCount f'.Meta = pictureCount f.Meta) ∧
    (env.Open mp3Name = .ok tag →
      (tag.GetTextFrame "TIT2").Text = "" → (tag.GetTextFrame "TALB").Text = "" →
      (tag.GetTextFrame "TPE1").Text = "" → tag.GetFrames "COMM" = [] →
      ∃ tag', tagMP3 env tag none meta = tag' ∧
        addMP3Tag env mp3Name none meta =
          (match env.SaveTag mp3Name tag' with
            | some err => .error err
            | none => .ok tag') ∧
        (tag'.GetTextFrame "TIT2").Text = "" ∧ (tag'.GetTextFrame "TALB").Text = "" ∧
        (tag'.GetTextFrame "TPE1").Text = "" ∧ tag'.GetFrames "COMM" = [] ∧
        tag'.pictures = tag.pictures) := by
  have hfc : fetchCover env none meta = none := by simp [fetchCover, hu]
  constructor
  · intro hp hd ht ha hr
    obtain ⟨hw, hvt⟩ := (Get_ok_iff c FIELD_TITLE []).1 ht
    have hmc : mergedComments c.Comments meta = c.Comments := by
      simp [mergedComments, titleEntries, albumEntries, artistEntries, hn, han, har]
    have hm : mergeComments c meta = .ok c := by
      rw [mergeComments_eq, if_pos hw, hmc]
    refine ⟨_, c, ?_, addFLACTag_eq_save env flacName none meta f c c hp hd hm, hm,
      mem_taggedBlocks _ _ _, rfl, ht, ha, hr, ?_⟩
    · rw [tagFLAC_eq, hd]
      simp only [hm]
    · have hcb : coverBlocks env (fetchCover env none meta) meta = [] := by
        rw [hfc]; simp [coverBlocks, appendPicture, hu]
      rw [hcb]
      simp only [taggedFile]
      rw [pictureCount_taggedBlocks _ _ _ (by simp) rfl]
      rfl
  · intro ho h1 h2 h3 h4
    have htag : tagMP3 env tag none meta = tag := by
      simp [tagMP3, hfc, attachPicture, addTitle, addAlbum, addArtists, addComment, hn, han, har,
        hc, hu]
    refine ⟨tag, htag, ?_, h1, h2, h3, h4, rfl⟩
    rw [addMP3Tag_eq_save env mp3Name none meta tag ho, htag]

/-- C8 at the sample file without comment block and the sample tag without
frames. -/
theorem absent_round_trip_sample :
    (∃ f' c', tagFLAC sampleEnv bareFile none emptyMeta = .ok f' ∧
        addFLACTag sampleEnv "bare.flac" none emptyMeta =
          (match sampleEnv.Save "bare.flac" f' with
            | some err => .error err
            | none => .ok f') ∧
        mergeComments ⟨"reference", []⟩ emptyMeta = .ok c' ∧ c'.Marshal sampleEnv ∈ f'.Meta ∧
        c'.Comments = [] ∧
        c'.Get FIELD_TITLE = .ok [] ∧ c'.Get FIELD_ALBUM = .ok [] ∧
        c'.Get FIELD_ARTIST = .ok [] ∧
        pictureCount f'.Meta = pictureCount bareFile.Meta) ∧
    (∃ tag', tagMP3 sampleEnv emptyTag none emptyMeta = tag' ∧
        addMP3Tag sampleEnv "song.mp3" none emptyMeta =
          (match sampleEnv.SaveTag "song.mp3" tag' with
            | some err => .error err
            | none => .ok tag') ∧
        (tag'.GetTextFrame "TIT2").Text = "" ∧ (tag'.GetTextFrame "TALB").Text = "" ∧
        (tag'.GetTextFrame "TPE1").Text = "" ∧ tag'.GetFrames "COMM" = [] ∧
        tag'.pictures = emptyTag.pictures) :=
  ⟨(absent_round_trip sampleEnv "bare.flac" "song.mp3" emptyMeta bareFile ⟨"reference", []⟩
      emptyTag rfl rfl rfl rfl rfl).1 rfl rfl rfl rfl rfl,
   (absent_round_trip sampleEnv "bare.flac" "song.mp3" emptyMeta bareFile ⟨"reference", []⟩
      emptyTag rfl rfl rfl rfl rfl).2 rfl rfl rfl rfl rfl⟩

/-- C9 (FLAC block-list frame): on a successful call, with `pics` the
appended picture blocks (none or one) and `c'` the merged comments: either
the parsed list has a first block of type `VorbisComment`, at index `i`, the
encoded comments stand at index `i`, every other parsed block stands
unchanged at its index, and the list grew by `pics` at its end; or the
parsed list has no such block, every parsed block stands unchanged at its
index, and the encoded comments are the last block, after `pics`. -/
theorem flac_block_list_frame (env : Env) (fileName : String) (imgData : Option Bytes)
    (meta : Meta) (f f' : File)
    (hp : env.ParseFile fileName = .ok f)
    (h : addFLACTag env fileName imgData meta = .ok f') :
    ∃ (pics : List MetaDataBlock) (c c' : MetaDataBlockVorbisComment),
      pics.length ≤ 1 ∧ (∀ p ∈ pics, p.Type_ = Picture) ∧
      decodeComments env (findComment f.Meta) = .ok c ∧ mergeComments c meta = .ok c' ∧
      ((∃ i b, i < f.Meta.length ∧ f.Meta[i]? = some b ∧ b.Type_ = VorbisComment ∧
          (∀ j x, j < i → f.Meta[j]? = some x → x.Type_ ≠ VorbisComment) ∧
          f'.Meta = f.Meta.set i (c'.Marshal env) ++ pics ∧
          f'.Meta[i]? = some (c'.Marshal env) ∧
          (∀ j, j < f.Meta.length → j ≠ i → f'.Meta[j]? = f.Meta[j]?) ∧
          f'.Meta.length = f.Meta.length + pics.length) ∨
       ((∀ b ∈ f.Meta, b.Type_ ≠ VorbisComment) ∧
          f'.Meta = f.Meta ++ pics ++ [c'.Marshal env] ∧
          (∀ j, j < f.Meta.length → f'.Meta[j]? = f.Meta[j]?) ∧
          f'.Meta.getLast? = some (c'.Marshal env) ∧
          f'.Meta.length = f.Meta.length + pics.length + 1)) := by
  obtain ⟨c, c', hd, hm, hf⟩ := addFLACTag_ok_inv env fileName imgData meta f f' hp h
  refine ⟨coverBlocks env (fetchCover env imgData meta) meta, c, c',
    coverBlocks_length _ _ _, coverBlocks_type _ _ _, hd, hm, ?_⟩
  subst hf
  simp only [taggedFile, taggedBlocks]
  cases hfc : findComment f.Meta with
  | some ib =>
    obtain ⟨i, b⟩ := ib
    obtain ⟨k1, k2, k3, k4⟩ := findComment_some f.Meta i b hfc
    left
    refine ⟨i, b, k1, by simpa using k2, k3, ?_, rfl, ?_, ?_, ?_⟩
    · intro j x hj hx
      exact k4 j x hj (by simpa using hx)
    · simp only []
      rw [List.getElem?_append_left (by simpa using k1)]
      simp [k1]
    · intro j hj hji
      simp only []
      rw [List.getElem?_append_left (by simpa using hj)]
      simp [Ne.symm hji]
    · simp
  | none =>
    right
    refine ⟨findComment_none f.Meta hfc, rfl, ?_, ?_, ?_⟩
    · intro j hj
      simp only []
      rw [List.append_assoc, List.getElem?_append_left hj]
    · simp
    · simp only [List.length_append, List.length_singleton]

/-- C9 at the sample file, whose first comment block stands at index 2. -/
theorem flac_block_list_frame_sample :
    ∃ (pics : List MetaDataBlock) (c c' : MetaDataBlockVorbisComment),
      pics.length ≤ 1 ∧ (∀ p ∈ pics, p.Type_ = Picture) ∧
      decodeComments sampleEnv (findComment sampleFile.Meta) = .ok c ∧
      mergeComments c sampleMeta = .ok c' ∧
      ((∃ i b, i < sampleFile.Meta.length ∧ sampleFile.Meta[i]? = some b ∧
          b.Type_ = VorbisComment ∧
          (∀ j x, j < i → sampleFile.Meta[j]? = some x → x.Type_ ≠ VorbisComment) ∧
          (taggedFile sampleFile [(linkPicture sampleMeta).Marshal sampleEnv]
            ((⟨"reference", ["title=Old", "ALBUM=Disc", "ARTIST=A", "ARTIST=B"]⟩ :
              MetaDataBlockVorbisComment).Marshal sampleEnv)).Meta =
            sampleFile.Meta.set i (c'.Marshal sampleEnv) ++ pics ∧
          (taggedFile sampleFile [(linkPicture sampleMeta).Marshal sampleEnv]
            ((⟨"reference", ["title=Old", "ALBUM=Disc", "ARTIST=A", "ARTIST=B"]⟩ :
              MetaDataBlockVorbisComment).Marshal sampleEnv)).Meta[i]? =
            some (c'.Marshal sampleEnv) ∧
          (∀ j, j < sampleFile.Meta.length → j ≠ i →
            (taggedFile sampleFile [(linkPicture sampleMeta).Marshal sampleEnv]
              ((⟨"reference", ["title=Old", "ALBUM=Disc", "ARTIST=A", "ARTIST=B"]⟩ :
                MetaDataBlockVorbisComment).Marshal sampleEnv)).Meta[j]? =
              sampleFile.Meta[j]?) ∧
          (taggedFile sampleFile [(linkPicture sampleMeta).Marshal sampleEnv]
            ((⟨"reference", ["title=Old", "ALBUM=Disc", "ARTIST=A", "ARTIST=B"]⟩ :
              MetaDataBlockVorbisComment).Marshal sampleEnv)).Meta.length =
            sampleFile.Meta.length + pics.length) ∨
       ((∀ b ∈ sampleFile.Meta, b.Type_ ≠ VorbisComment) ∧
          (taggedFile sampleFile [(linkPicture sampleMeta).Marshal sampleEnv]
            ((⟨"reference", ["title=Old", "ALBUM=Disc", "ARTIST=A", "ARTIST=B"]⟩ :
              MetaDataBlockVorbisComment).Marshal sampleEnv)).Meta =
            sampleFile.Meta ++ pics ++ [c'.Marshal sampleEnv] ∧
          (∀ j, j < sampleFile.Meta.length →
            (taggedFile sampleFile [(linkPicture sampleMeta).Marshal sampleEnv]
              ((⟨"reference", ["title=Old", "ALBUM=Disc", "ARTIST=A", "ARTIST=B"]⟩ :
                MetaDataBlockVorbisComment).Marshal sampleEnv)).Meta[j]? =
              sampleFile.Meta[j]?) ∧
          (taggedFile sampleFile [(linkPicture sampleMeta).Marshal sampleEnv]
            ((⟨"reference", ["title=Old", "ALBUM=Disc", "ARTIST=A", "ARTIST=B"]⟩ :
              MetaDataBlockVorbisComment).Marshal sampleEnv)).Meta.getLast? =
            some (c'.Marshal sampleEnv) ∧
          (taggedFile sampleFile [(linkPicture sampleMeta).Marshal sampleEnv]
            ((⟨"reference", ["title=Old", "ALBUM=Disc", "ARTIST=A", "ARTIST=B"]⟩ :
              MetaDataBlockVorbisComment).Marshal sampleEnv)).Meta.length =
            sampleFile.Meta.length + pics.length + 1)) :=
  flac_block_list_frame sampleEnv "song.flac" none sampleMeta sampleFile
    (taggedFile sampleFile [(linkPicture sampleMeta).Marshal sampleEnv]
      ((⟨"reference", ["title=Old", "ALBUM=Disc", "ARTIST=A", "ARTIST=B"]⟩ :
        MetaDataBlockVorbisComment).Marshal sampleEnv)) rfl rfl

/-- C10 (text tagging is idempotent): on well-formed comments the merge
steps of `addFLACTag` succeed, and applied once more to their result, with
the same track, they succeed and return that result unchanged; no title,
album or artist entry is written a second time. -/
theorem flac_text_merge_idempotent (c : MetaDataBlockVorbisComment) (m : Meta)
    (hw : wellFormed c.Comments = true) :
    ∃ c1, mergeComments c m = .ok c1 ∧ mergeComments c1 m = .ok c1 := by
  refine ⟨{ c with Comments := mergedComments c.Comments m }, ?_, ?_⟩
  · rw [mergeComments_eq, if_pos hw]
  · rw [mergeComments_eq]
    simp only [wellFormed_merged, hw, if_true, mergedComments_idem]

/-- C10 at comments that hold a title: the album and the artists are added
once. -/
theorem flac_text_merge_idempotent_sample :
    ∃ c1, mergeComments ⟨"reference", ["title=Old"]⟩ sampleMeta = .ok c1 ∧
      mergeComments c1 sampleMeta = .ok c1 :=
  flac_text_merge_idempotent ⟨"reference", ["title=Old"]⟩ sampleMeta (by decide)

end Ncmdump
